import Mathlib

/-!
# Verification of the `martian` syntax formatter (`src/martian/syntax/formatter.go`)

This file is a shallow embedding of the MRO canonical formatter: the AST data
model (`SourceFile`, `AstNode`, expressions, bindings, calls, stages,
pipelines, `Ast`) and the formatting functions (`ValExp.format`,
`BindStm.format`, `CallStm.format`, `Stage.format`, `Pipeline.format`,
`Ast.format`, `JsonDumpAsts`), translated from the Go source.

Modelling conventions:
* Go machine integers are modelled as `Int`/`Nat` (no overflow is relevant to
  any formatted quantity here).
* Go `float64` values are modelled exactly: a binary64 number is a pair
  `m * 2^e` of integers (`F64`), and `fmt`'s `%g` verb (shortest decimal
  representation that round-trips, Go strconv 'g' with precision -1) is
  implemented over exact integer fractions.
* Go maps are modelled as association lists; where the Go code *iterates* a
  map (an order the Go runtime deliberately randomizes), the iteration order
  is an explicit parameter of the embedded function, so that order-dependence
  is expressible.
* Go pointer mutation (the formatter rewrites `CallStm.Modifiers.Bindings`
  in place and `Pipeline.format` reorders `Calls` in place) is modelled by
  state passing: those format functions return the updated node next to the
  printer.
* Recursion over the expression tree is implemented with an explicit fuel
  argument (initialised from a size measure) so that every definition is a
  plain structural recursion that evaluates by `decide`/`rfl`.
-/

set_option maxRecDepth 40000

/-! ## Basic constants and helpers (formatter.go lines 19-30) -/

def INDENT : String := "    "

def NEWLINE : String := "\n"

/-- `strings.Repeat(" ", n)`. -/
def spaces (n : Nat) : String := String.mk (List.replicate n ' ')

/-- Go `max` helper from formatter.go lines 24-30. -/
def goMax (a b : Nat) : Nat := if a > b then a else b

/-! ## Source locations (AstNode data model)

`SourceFile` and `SourceLoc` are mutually recursive in the Go source
(`SourceFile.IncludedFrom []*SourceLoc`, `SourceLoc.File *SourceFile`); the
nil-ability of the `File` pointer is modelled with `Option`. -/

mutual
inductive SourceFile where
  | mk (fileName : String) (fullPath : String) (includedFrom : List SourceLoc) : SourceFile
inductive SourceLoc where
  | mk (line : Nat) (file : Option SourceFile) : SourceLoc
end

def SourceFile.fileName : SourceFile → String
  | .mk n _ _ => n

def SourceFile.fullPath : SourceFile → String
  | .mk _ p _ => p

def SourceFile.includedFrom : SourceFile → List SourceLoc
  | .mk _ _ l => l

def SourceLoc.line : SourceLoc → Nat
  | .mk l _ => l

def SourceLoc.file : SourceLoc → Option SourceFile
  | .mk _ f => f

/-- A collected comment block (`commentBlock` in the Go source). -/
structure CommentBlock where
  loc : SourceLoc
  value : String

/-- Common AST node header: location, trailing comments, scope comments. -/
structure AstNode where
  loc : SourceLoc
  comments : List String
  scopeComments : List CommentBlock

/-- The file path of a node's location.  The Go code dereferences
`node.Loc.File` unconditionally; a `none` file (impossible for parsed nodes)
is mapped to `""`. -/
def AstNode.fullPath (n : AstNode) : String :=
  match n.loc.file with
  | some f => f.fullPath
  | none => ""

def AstNode.fileName (n : AstNode) : String :=
  match n.loc.file with
  | some f => f.fileName
  | none => ""

/-! ## Expression kind tags (`ExpKind` constants in the Go source) -/

def KindInt : String := "int"

def KindFloat : String := "float"

def KindString : String := "string"

def KindMap : String := "map"

def KindArray : String := "array"

def KindBool : String := "bool"

def KindNull : String := "null"

def KindCall : String := "call"

def KindSelf : String := "self"

/-! ## Exact binary64 values and Go's `%g` formatting

`ValExp.format` prints floats with `fmt.Fprintf(w, "%g", self.Value)`
(formatter.go line 121), i.e. Go strconv 'g' format with shortest
round-tripping precision.  We model the float64 *value* exactly as
`m * 2^e` with integers, and implement the shortest-round-trip decimal
conversion over exact (unnormalized) integer fractions, entirely with
`Int`/`Nat` arithmetic. -/

/-- Unnormalized fraction `num / den` with positive denominator. -/
structure Frac where
  num : Int
  den : Int

def Frac.blt (a b : Frac) : Bool := a.num * b.den < b.num * a.den

def Frac.ble (a b : Frac) : Bool := a.num * b.den ≤ b.num * a.den

def Frac.mulPow2 (a : Frac) (k : Int) : Frac :=
  if k ≥ 0 then ⟨a.num * 2 ^ k.toNat, a.den⟩ else ⟨a.num, a.den * 2 ^ (-k).toNat⟩

def Frac.mulPow10 (a : Frac) (k : Int) : Frac :=
  if k ≥ 0 then ⟨a.num * 10 ^ k.toNat, a.den⟩ else ⟨a.num, a.den * 10 ^ (-k).toNat⟩

def Frac.floor (a : Frac) : Int := a.num.fdiv a.den

def Frac.sub (a b : Frac) : Frac := ⟨a.num * b.den - b.num * a.den, a.den * b.den⟩

/-- Round to the nearest integer, ties to even (IEEE-754 default rounding,
used both by `strconv.ParseFloat` and inside the shortest-digits search). -/
def Frac.roundHE (a : Frac) : Int :=
  let f := a.floor
  let r : Frac := a.sub ⟨f, 1⟩
  let twice := 2 * r.num
  if twice * r.den < r.den * r.den then f
  else if twice * r.den > r.den * r.den then f + 1
  else if f % 2 = 0 then f else f + 1

def ilog2Up : Nat → Frac → Int
  | 0, _ => 0
  | n + 1, q => if Frac.blt q ⟨2, 1⟩ then 0 else 1 + ilog2Up n ⟨q.num, q.den * 2⟩

def ilog2Down : Nat → Frac → Int
  | 0, _ => 0
  | n + 1, q => if Frac.ble ⟨1, 1⟩ q then 0 else ilog2Down n ⟨q.num * 2, q.den⟩ - 1

/-- Floor of the base-2 logarithm of a positive fraction (fuel covers the
full binary64 exponent range). -/
def Frac.ilog2 (q : Frac) : Int :=
  if Frac.ble ⟨1, 1⟩ q then ilog2Up 1300 q else ilog2Down 1300 q

def ilog10Up : Nat → Frac → Int
  | 0, _ => 0
  | n + 1, q => if Frac.blt q ⟨10, 1⟩ then 0 else 1 + ilog10Up n ⟨q.num, q.den * 10⟩

def ilog10Down : Nat → Frac → Int
  | 0, _ => 0
  | n + 1, q => if Frac.ble ⟨1, 1⟩ q then 0 else ilog10Down n ⟨q.num * 10, q.den⟩ - 1

/-- Floor of the base-10 logarithm of a positive fraction. -/
def Frac.ilog10 (q : Frac) : Int :=
  if Frac.ble ⟨1, 1⟩ q then ilog10Up 400 q else ilog10Down 400 q

/-- An exact binary64 value `m * 2^e` (`m = 0` encodes zero; normal values
keep `2^52 ≤ |m| < 2^53`).  Non-finite values do not arise in parsed MRO. -/
structure F64 where
  m : Int
  e : Int

/-- Value equality of two exact binary64 representations. -/
def F64.beq (a b : F64) : Bool :=
  if a.e ≥ b.e then a.m * 2 ^ (a.e - b.e).toNat == b.m
  else a.m == b.m * 2 ^ (b.e - a.e).toNat

/-- The binary64 nearest (ties to even) to the decimal `n * 10^k`: the value
`strconv.ParseFloat` assigns to a decimal literal.  Normal range only, which
covers every literal of interest. -/
def nearestF64 (n : Int) (k : Int) : F64 :=
  if n = 0 then ⟨0, 0⟩
  else
    let a : Frac := Frac.mulPow10 ⟨(n.natAbs : Int), 1⟩ k
    let e : Int := a.ilog2 - 52
    let m : Int := (a.mulPow2 (-e)).roundHE
    let me : Int × Int := if m = 2 ^ 53 then ((2 ^ 52 : Int), e + 1) else (m, e)
    if n < 0 then ⟨-me.1, me.2⟩ else ⟨me.1, me.2⟩

/-- Search for the shortest decimal `mant * 10^(d10-p+1)` (with `p`
significant digits, `p = 1, 2, ...`) that parses back to the positive
binary64 `v`; returns the digits and the decimal exponent of the leading
digit. -/
def shortestAux : Nat → F64 → Int → Nat → Int × Int
  | 0, v, d10, _ => (v.m, d10)
  | fuelLeft + 1, v, d10, p =>
    let scaled : Frac := (Frac.mulPow2 ⟨(v.m.natAbs : Int), 1⟩ v.e).mulPow10 (-(d10 - (p : Int) + 1))
    let mant := scaled.roundHE
    let md : Int × Int := if mant = 10 ^ p then ((10 ^ (p - 1) : Int), d10 + 1) else (mant, d10)
    if F64.beq (nearestF64 md.1 (md.2 - (p : Int) + 1)) ⟨(v.m.natAbs : Int), v.e⟩ then md
    else shortestAux fuelLeft v d10 (p + 1)

def F64.shortest (v : F64) : Int × Int :=
  let a : Frac := Frac.mulPow2 ⟨(v.m.natAbs : Int), 1⟩ v.e
  shortestAux 18 v a.ilog10 1

/-- Drop trailing `'0'` digits. -/
def stripZeros (s : List Char) : List Char :=
  (s.reverse.dropWhile (· = '0')).reverse

/-- Go prints `%g` exponents with a sign and at least two digits. -/
def expDigits (e : Int) : String :=
  let s := toString e.natAbs
  if e.natAbs < 10 then "0" ++ s else s

/-- Go `fmt.Sprintf("%g", v)` for a binary64 value: shortest round-tripping
digits; scientific notation when the decimal exponent is `< -4` or `≥ 6`
(strconv ftoa 'g' with `shortest` sets `eprec = 6`), fixed-point otherwise;
no trailing zeros and no trailing decimal point. -/
def formatG (v : F64) : String :=
  if v.m = 0 then "0"
  else
    let sign := if v.m < 0 then "-" else ""
    let md := F64.shortest ⟨(v.m.natAbs : Int), v.e⟩
    let ds := stripZeros (toString md.1.natAbs).toList
    let d10 := md.2
    let nd : Int := ds.length
    if d10 < -4 || d10 ≥ 6 then
      let head := String.mk [ds.headD '0']
      let tail := if ds.length > 1 then "." ++ String.mk (ds.drop 1) else ""
      let esign := if d10 < 0 then "-" else "+"
      sign ++ head ++ tail ++ "e" ++ esign ++ expDigits d10
    else if d10 ≥ 0 then
      if nd > d10 + 1 then
        sign ++ String.mk (ds.take (d10 + 1).toNat) ++ "." ++ String.mk (ds.drop (d10 + 1).toNat)
      else sign ++ String.mk ds ++ spaces 0 ++ String.mk (List.replicate (d10 + 1 - nd).toNat '0')
    else sign ++ "0." ++ String.mk (List.replicate (-d10 - 1).toNat '0') ++ String.mk ds

/-! ## Expressions

Go's `Exp` interface has the two implementations `*ValExp` and `*RefExp`;
`ValExp.Value` is an `interface{}` holding `nil`, `int64`, `float64`,
`string`, `bool`, `[]Exp` or `map[string]Exp`.  The payload is modelled by
`GoValue`; lists and maps use the dedicated `ExpList`/`KVList` spines so
that all recursion stays plainly structural. -/

/-- `RefExp`: a call-output reference (`Kind = KindCall`) or a
self/pipeline-input reference (`Kind = KindSelf`). -/
structure RefExp where
  node : AstNode
  kind : String
  id : String
  outputId : String

mutual
inductive Exp where
  | val (node : AstNode) (kind : String) (value : GoValue) : Exp
  | ref (r : RefExp) : Exp
inductive GoValue where
  | nil : GoValue
  | int (n : Int) : GoValue
  | float (f : F64) : GoValue
  | str (s : String) : GoValue
  | bool (b : Bool) : GoValue
  | array (xs : ExpList) : GoValue
  | map (kvs : KVList) : GoValue
inductive ExpList where
  | nil : ExpList
  | cons (e : Exp) (rest : ExpList) : ExpList
inductive KVList where
  | nil : KVList
  | cons (k : String) (v : Exp) (rest : KVList) : KVList
end

mutual
def Exp.size : Exp → Nat
  | .val _ _ v => 1 + v.size
  | .ref _ => 1
def GoValue.size : GoValue → Nat
  | .array xs => 1 + xs.size
  | .map kvs => 1 + kvs.size
  | _ => 1
def ExpList.size : ExpList → Nat
  | .nil => 1
  | .cons e rest => 1 + e.size + rest.size
def KVList.size : KVList → Nat
  | .nil => 1
  | .cons _ v rest => 1 + v.size + rest.size
end

def ExpList.length : ExpList → Nat
  | .nil => 0
  | .cons _ rest => 1 + rest.length

def ExpList.toList : ExpList → List Exp
  | .nil => []
  | .cons e rest => e :: rest.toList

def Exp.getNode : Exp → AstNode
  | .val n _ _ => n
  | .ref r => r.node

/-- Lexicographic `≤` on char lists (Go compares strings byte-wise; UTF-8
preserves code-point order, so comparing code points is equivalent). -/
def lexLe : List Char → List Char → Bool
  | [], _ => true
  | _ :: _, [] => false
  | c :: cs, d :: ds =>
    if c.toNat < d.toNat then true
    else if d.toNat < c.toNat then false
    else lexLe cs ds

/-- Go string `<=` (and the total order under Go's string `<`). -/
def strLe (a b : String) : Bool := lexLe a.data b.data

/-- Insert a key/value pair into a key-sorted `KVList` (used to model
`sort.Strings(keys)` in `ValExp.formatMap`; Go map keys are unique, so
sorting the pairs by key is the same as iterating the sorted key list). -/
def KVList.insertSorted (k : String) (v : Exp) : KVList → KVList
  | .nil => .cons k v .nil
  | .cons k' v' rest =>
    if strLe k k' then .cons k v (.cons k' v' rest)
    else .cons k' v' (insertSorted k v rest)

def KVList.sortByKey : KVList → KVList
  | .nil => .nil
  | .cons k v rest => (sortByKey rest).insertSorted k v

/-- `RefExp.format` (formatter.go lines 192-203).  The `prefix` parameter of
the Go method is unused. -/
def RefExp.format (r : RefExp) : String :=
  if r.kind = KindCall then
    r.id ++ (if r.outputId ≠ "default" then "." ++ r.outputId else "")
  else "self." ++ r.id

/-- Go `fmt.Fprint` / `%v` rendering of a `ValExp.Value` payload, used for
the `%s` of string literals and for the untyped fallback branch (which in
practice only ever sees `bool` values). -/
def GoValue.vrender : GoValue → String
  | .nil => "<nil>"
  | .int n => toString n
  | .float f => formatG f
  | .str s => s
  | .bool b => if b then "true" else "false"
  | .array _ => ""
  | .map _ => ""

mutual
/-- `ValExp.format`/`formatArray`/`formatMap` (formatter.go lines 115-190),
by structural recursion on fuel.  The fuel is initialised from `Exp.size`
by the wrapper `Exp.format`, and only the `array`/`map` branches consume
it, so every non-recursive equation holds for arbitrary fuel.  In the
`KindArray` branch with a non-array payload the Go type assertion
`self.Value.([]Exp)` would panic; that unreachable case yields `""`. -/
def fmtExp : Nat → Exp → String → String
  | _, .ref r, _ => r.format
  | fuel, .val _ kind value, pre =>
    match value with
    | .nil => "null"
    | v =>
      if kind = KindInt then
        match v with
        | .int n => toString n
        | _ => v.vrender
      else if kind = KindFloat then
        match v with
        | .float f => formatG f
        | _ => v.vrender
      else if kind = KindString then "\"" ++ v.vrender ++ "\""
      else if kind = KindMap then
        match v with
        | .map (KVList.cons k0 v0 rest0) =>
          match fuel with
          | 0 => ""
          | f + 1 =>
            "\x7b\n" ++ fmtKVs f ((KVList.cons k0 v0 rest0).sortByKey) (pre ++ INDENT) ++
              pre ++ "\x7d"
        | _ => "\x7b\x7d"
      else if kind = KindArray then
        match v with
        | .array ExpList.nil => "[]"
        | .array (ExpList.cons e ExpList.nil) =>
          match fuel with
          | 0 => ""
          | f + 1 => "[" ++ fmtExp f e pre ++ "]"
        | .array (ExpList.cons e (ExpList.cons e2 rest)) =>
          match fuel with
          | 0 => ""
          | f + 1 =>
            "[\n" ++ fmtList f (ExpList.cons e (ExpList.cons e2 rest)) (pre ++ INDENT) ++
              pre ++ "]"
        | _ => ""
      else v.vrender
def fmtList : Nat → ExpList → String → String
  | _, .nil, _ => ""
  | 0, .cons _ _, _ => ""
  | fuel + 1, .cons e rest, vindent =>
    vindent ++ fmtExp fuel e vindent ++ ",\n" ++ fmtList fuel rest vindent
def fmtKVs : Nat → KVList → String → String
  | _, .nil, _ => ""
  | 0, .cons _ _ _, _ => ""
  | fuel + 1, .cons k v rest, vindent =>
    vindent ++ "\"" ++ k ++ "\": " ++ fmtExp fuel v vindent ++ ",\n" ++ fmtKVs fuel rest vindent
end

/-- `Exp.format`: the Go `format(w, prefix)` methods of `ValExp`/`RefExp`,
with enough fuel for the whole expression. -/
def Exp.format (e : Exp) (pre : String) : String := fmtExp (e.size + 1) e pre

def sweepLines : ExpList → String → String
  | .nil, _ => ""
  | .cons e rest, vindent => vindent ++ e.format vindent ++ ",\n" ++ sweepLines rest vindent

/-- `ValExp.formatSweep` (formatter.go lines 133-144), on the `[]Exp`
payload of the sweep's `ValExp`. -/
def formatSweep (xs : ExpList) (pre : String) : String :=
  "sweep(\n" ++ sweepLines xs (pre ++ INDENT) ++ pre ++ ")"

/-! ## Bindings, modifiers, calls (AST data model)

Field layout follows the grammar actions in the repository's `.y` source:
`BindStm{Node, Id, Exp, Sweep, Tname}`, `BindStms{Node, List, Table}`,
`CallStm{Node, Modifiers, Id, DecId, Bindings}`.  The derived `Table` maps
(never read by the formatter) are omitted. -/

structure BindStm where
  node : AstNode
  id : String
  exp : Exp
  sweep : Bool
  tname : String

structure BindStms where
  node : AstNode
  list : List BindStm

/-- `Modifiers`: the bare flags plus the optional bound-form bindings table.
`Local` is renamed `localMod` (`local` is reserved in Lean). -/
structure Modifiers where
  localMod : Bool
  preflight : Bool
  volatile : Bool
  bindings : Option BindStms

structure CallStm where
  node : AstNode
  modifiers : Modifiers
  id : String
  decId : String
  bindings : BindStms

/-! ## Parameters -/

structure InParam where
  node : AstNode
  tname : String
  arrayDim : Nat
  id : String
  help : String
  isfile : Bool

structure OutParam where
  node : AstNode
  tname : String
  arrayDim : Nat
  id : String
  help : String
  outName : String
  isfile : Bool

/-- The Go `Param` interface (implemented by `*InParam` and `*OutParam`). -/
inductive Param where
  | inP (p : InParam) : Param
  | outP (p : OutParam) : Param

def Param.getNode : Param → AstNode
  | .inP p => p.node
  | .outP p => p.node

def Param.getMode : Param → String
  | .inP _ => "in"
  | .outP _ => "out"

def Param.getTname : Param → String
  | .inP p => p.tname
  | .outP p => p.tname

def Param.getArrayDim : Param → Nat
  | .inP p => p.arrayDim
  | .outP p => p.arrayDim

def Param.getId : Param → String
  | .inP p => p.id
  | .outP p => p.id

def Param.getHelp : Param → String
  | .inP p => p.help
  | .outP p => p.help

def Param.getOutName : Param → String
  | .inP _ => ""
  | .outP p => p.outName

structure InParams where
  list : List InParam

structure OutParams where
  list : List OutParam

structure SrcParam where
  node : AstNode
  lang : String
  path : String
  args : List String

/-- `Resources`: presence of each field is tracked by its node pointer
(`nil` ⇒ absent), exactly as in the Go struct. -/
structure Resources where
  node : AstNode
  threadNode : Option AstNode
  memNode : Option AstNode
  specialNode : Option AstNode
  volatileNode : Option AstNode
  threads : Int
  memGB : Int
  special : String
  strictVolatile : Bool

structure RetainParam where
  node : AstNode
  id : String

structure RetainParams where
  node : AstNode
  params : List RetainParam

structure ReturnStm where
  node : AstNode
  bindings : BindStms

structure PipelineRetains where
  node : AstNode
  refs : List RefExp

structure Include where
  node : AstNode
  value : String

structure UserType where
  node : AstNode
  id : String

structure Stage where
  node : AstNode
  id : String
  inParams : InParams
  outParams : OutParams
  src : SrcParam
  chunkIns : InParams
  chunkOuts : OutParams
  split : Bool
  resources : Option Resources
  retain : Option RetainParams

/-! ## Pipelines and callables (mutually recursive: a pipeline carries a
nested `Callables` table) -/

mutual
inductive Callable where
  | stage (s : Stage) : Callable
  | pipeline (p : Pipeline) : Callable
inductive Pipeline where
  | mk (node : AstNode) (id : String) (inParams : InParams) (outParams : OutParams)
      (calls : List CallStm) (callables : List Callable) (ret : ReturnStm)
      (retain : Option PipelineRetains) : Pipeline
end

def Pipeline.node : Pipeline → AstNode
  | .mk n _ _ _ _ _ _ _ => n

def Pipeline.id : Pipeline → String
  | .mk _ i _ _ _ _ _ _ => i

def Pipeline.inParams : Pipeline → InParams
  | .mk _ _ i _ _ _ _ _ => i

def Pipeline.outParams : Pipeline → OutParams
  | .mk _ _ _ o _ _ _ _ => o

def Pipeline.calls : Pipeline → List CallStm
  | .mk _ _ _ _ c _ _ _ => c

def Pipeline.callables : Pipeline → List Callable
  | .mk _ _ _ _ _ c _ _ => c

def Pipeline.ret : Pipeline → ReturnStm
  | .mk _ _ _ _ _ _ r _ => r

def Pipeline.retain : Pipeline → Option PipelineRetains
  | .mk _ _ _ _ _ _ _ r => r

def Pipeline.withCalls : Pipeline → List CallStm → Pipeline
  | .mk n i ip op _ cs r rt, calls => .mk n i ip op calls cs r rt

structure Callables where
  list : List Callable

/-- The compilation unit (`Ast`).  `files` models the `map[string]*SourceFile`
of touched files as an association list; `comments` is the comment pool. -/
structure Ast where
  includes : List Include
  userTypes : List UserType
  stages : List Stage
  pipelines : List Pipeline
  callables : Callables
  call : Option CallStm
  files : List (String × SourceFile)
  comments : List CommentBlock

/-! ## Association list helpers (Go `map[string][]*commentBlock`) -/

def lookupAssoc {α : Type} (l : List (String × α)) (k : String) : Option α :=
  match l with
  | [] => none
  | (k', v) :: rest => if k' = k then some v else lookupAssoc rest k

def eraseAssoc {α : Type} (l : List (String × α)) (k : String) : List (String × α) :=
  match l with
  | [] => []
  | (k', v) :: rest => if k' = k then eraseAssoc rest k else (k', v) :: eraseAssoc rest k

def appendAssoc (l : List (String × List CommentBlock)) (k : String) (c : CommentBlock) :
    List (String × List CommentBlock) :=
  match l with
  | [] => [(k, [c])]
  | (k', vs) :: rest => if k' = k then (k', vs ++ [c]) :: rest else (k', vs) :: appendAssoc rest k c

/-! ## The printer (formatter.go lines 39-110) -/

structure Printer where
  buf : String
  comments : List (String × List CommentBlock)
  lastComment : SourceLoc

def Printer.writeString (p : Printer) (s : String) : Printer :=
  { p with buf := p.buf ++ s }

/-- `printer.printComments` (formatter.go lines 45-76).

The blank-line rule for scope comments compares Go ints:
`lastComment.Line != 0 && lastComment.Line == c.Loc.Line-2`; over `Nat`
this is equivalent to `lastLine ≠ 0 ∧ lastLine + 2 = c.loc.line`. -/
def Printer.printComments (p : Printer) (node : AstNode) (pre : String) : Printer :=
  let p :=
    match p.lastComment.file with
    | some f =>
      if f.fullPath ≠ node.fullPath then
        { buf := p.buf ++
            String.join (((lookupAssoc p.comments f.fullPath).getD []).map
              (fun c => c.value ++ NEWLINE)) ++
            "#\n# @include \"" ++ node.fileName ++ "\"\n#\n\n"
          comments := eraseAssoc p.comments f.fullPath
          lastComment := p.lastComment }
      else p
    | none => p
  let p := node.scopeComments.foldl
    (fun (p : Printer) c =>
      let p :=
        if p.lastComment.line ≠ 0 ∧ p.lastComment.line + 2 = c.loc.line then
          p.writeString NEWLINE
        else p
      { p with
        buf := p.buf ++ pre ++ c.value ++ NEWLINE
        lastComment := c.loc }) p
  let p := if node.scopeComments.isEmpty then p else p.writeString NEWLINE
  let p := node.comments.foldl (fun (p : Printer) c => p.writeString (pre ++ c ++ NEWLINE)) p
  { p with lastComment := node.loc }

/-- `printer.DumpComments` (formatter.go lines 98-106).  The Go code ranges
over the `map[string][]*commentBlock`; the Go runtime randomizes that
iteration order, so the order is taken here as an explicit parameter
(`order` is meant to enumerate the remaining keys exactly once; theorems
constrain it to a permutation of the keys). -/
def Printer.dumpComments (p : Printer) (order : List String) : Printer :=
  let p := order.foldl
    (fun (acc : Printer) k =>
      { acc with buf := acc.buf ++
          String.join (((lookupAssoc p.comments k).getD []).map (fun c => c.value ++ NEWLINE)) }) p
  { p with comments := [] }

/-! ## Binding formatting (formatter.go lines 208-241) -/

/-- `BindStm.format` (formatter.go lines 208-228): sweep rendering is used
only when the expression is a `ValExp` holding an `[]Exp`, the binding's
`Sweep` flag is set, and there is more than one alternative. -/
def BindStm.format (b : BindStm) (pr : Printer) (pre : String) (idWidth : Nat) : Printer :=
  let pr := pr.printComments b.node (pre ++ INDENT)
  let pr := pr.printComments b.exp.getNode (pre ++ INDENT)
  let idPad := if b.id.length < idWidth then spaces (idWidth - b.id.length) else ""
  let pr := pr.writeString (pre ++ INDENT ++ b.id ++ idPad ++ " = ")
  match b.exp with
  | .val _ _ (.array xs) =>
    if b.sweep && xs.length > 1 then pr.writeString (formatSweep xs (pre ++ INDENT) ++ ",\n")
    else pr.writeString (b.exp.format (pre ++ INDENT) ++ ",\n")
  | _ => pr.writeString (b.exp.format (pre ++ INDENT) ++ ",\n")

/-- `BindStms.format` (formatter.go lines 230-241): the id column width is
the longest binding id of length `< 30`. -/
def BindStms.format (bs : BindStms) (pr : Printer) (pre : String) : Printer :=
  let pr := pr.printComments bs.node pre
  let idWidth := bs.list.foldl (fun w b => if b.id.length < 30 then goMax w b.id.length else w) 0
  bs.list.foldl (fun pr b => b.format pr pre idWidth) pr

/-! ## Parameter column widths and layout (formatter.go lines 246-362) -/

structure Widths where
  modeW : Nat
  typeW : Nat
  idW : Nat
  helpW : Nat

/-- One step of the `getWidths` loops: mode and type always widen their
columns; identifiers of length `≥ 35` and help strings of length `≥ 25` are
excluded from the id/help columns. -/
def paramWidthStep (w : Widths) (p : Param) : Widths :=
  { modeW := goMax w.modeW p.getMode.length
    typeW := goMax w.typeW (p.getTname.length + 2 * p.getArrayDim)
    idW := if p.getId.length < 35 then goMax w.idW p.getId.length else w.idW
    helpW := if p.getHelp.length < 25 then goMax w.helpW p.getHelp.length else w.helpW }

/-- `InParams.getWidths` (formatter.go lines 301-317). -/
def InParams.getWidths (ps : InParams) : Widths :=
  ps.list.foldl (fun w p => paramWidthStep w (Param.inP p)) ⟨0, 0, 0, 0⟩

/-- `OutParams.getWidths` (formatter.go lines 319-335). -/
def OutParams.getWidths (ps : OutParams) : Widths :=
  ps.list.foldl (fun w p => paramWidthStep w (Param.outP p)) ⟨0, 0, 0, 0⟩

/-- `measureParamsWidths` (formatter.go lines 337-350), over the width
tuples of the argument lists. -/
def measureParamsWidths (ws : List Widths) : Widths :=
  ws.foldl
    (fun acc w =>
      ⟨goMax acc.modeW w.modeW, goMax acc.typeW w.typeW,
        goMax acc.idW w.idW, goMax acc.helpW w.helpW⟩)
    ⟨0, 0, 0, 0⟩

/-- `paramFormat` (formatter.go lines 246-295). -/
def paramFormat (pr : Printer) (param : Param) (modeWidth typeWidth idWidth helpWidth : Nat) :
    Printer :=
  let pr := pr.printComments param.getNode INDENT
  let id := if param.getId = "default" then "" else param.getId
  let modePad := spaces (modeWidth - param.getMode.length)
  let typePad := spaces (typeWidth - param.getTname.length - 2 * param.getArrayDim)
  let idPad := if idWidth > id.length then spaces (idWidth - id.length) else ""
  let helpPad :=
    if helpWidth > param.getHelp.length then spaces (helpWidth - param.getHelp.length) else ""
  let pr := pr.writeString (INDENT ++ param.getMode ++ modePad ++ " " ++ param.getTname)
  let pr := pr.writeString (String.join (List.replicate param.getArrayDim "[]"))
  let pr := if id ≠ "" then pr.writeString (typePad ++ " " ++ id) else pr
  let pr :=
    if param.getHelp.length > 0 then
      (if id = "" then pr.writeString (typePad ++ " ") else pr).writeString
        (idPad ++ "  \"" ++ param.getHelp ++ "\"")
    else pr
  let pr :=
    if param.getOutName.length > 0 then
      (if param.getHelp = "" then pr.writeString (idPad ++ "  ") else pr).writeString
        (helpPad ++ "  \"" ++ param.getOutName ++ "\"")
    else pr
  pr.writeString ",\n"

def InParams.format (ps : InParams) (pr : Printer)
    (modeWidth typeWidth idWidth helpWidth : Nat) : Printer :=
  ps.list.foldl (fun pr p => paramFormat pr (Param.inP p) modeWidth typeWidth idWidth helpWidth) pr

def OutParams.format (ps : OutParams) (pr : Printer)
    (modeWidth typeWidth idWidth helpWidth : Nat) : Printer :=
  ps.list.foldl (fun pr p => paramFormat pr (Param.outP p) modeWidth typeWidth idWidth helpWidth) pr

/-- `SrcParam.format` (formatter.go lines 564-571).  The `idWidth` argument
is passed but unused, as in the Go code. -/
def SrcParam.format (s : SrcParam) (pr : Printer) (modeWidth typeWidth _idWidth : Nat) : Printer :=
  let pr := pr.printComments s.node INDENT
  let langPad := spaces (typeWidth - s.lang.length)
  let modePad := spaces (modeWidth - "src".length)
  pr.writeString (INDENT ++ "src" ++ modePad ++ " " ++ s.lang ++ langPad ++ " \"" ++
    String.intercalate " " (s.path :: s.args) ++ "\",\n")

/-- `Resources.format` (formatter.go lines 516-551): emits only the fields
whose node marker is present, in the fixed order `mem_gb`, `special`,
`threads`, `volatile = strict`, with padding depending on which are set. -/
def Resources.format (r : Resources) (pr : Printer) : Printer :=
  let pr := pr.printComments r.node INDENT
  let pr := pr.writeString ") using (\n"
  let pads : String × String :=
    if r.volatileNode.isSome then ("  ", " ")
    else if r.specialNode.isSome || r.threadNode.isSome then (" ", "")
    else ("", "")
  let pr :=
    match r.memNode with
    | some n =>
      (pr.printComments n INDENT).writeString
        (INDENT ++ "mem_gb" ++ pads.1 ++ " = " ++ toString r.memGB ++ ",\n")
    | none => pr
  let pr :=
    match r.specialNode with
    | some n =>
      (pr.printComments n INDENT).writeString
        (INDENT ++ "special" ++ pads.2 ++ " = \"" ++ r.special ++ "\",\n")
    | none => pr
  let pr :=
    match r.threadNode with
    | some n =>
      (pr.printComments n INDENT).writeString
        (INDENT ++ "threads" ++ pads.2 ++ " = " ++ toString r.threads ++ ",\n")
    | none => pr
  match r.volatileNode with
  | some n => (pr.printComments n INDENT).writeString (INDENT ++ "volatile = strict,\n")
  | none => pr

/-- `RetainParams.format` (formatter.go lines 553-562). -/
def RetainParams.format (rp : RetainParams) (pr : Printer) : Printer :=
  let pr := pr.printComments rp.node INDENT
  let pr := pr.writeString ") retain (\n"
  rp.params.foldl
    (fun (pr : Printer) param =>
      (pr.printComments param.node INDENT).writeString (INDENT ++ param.id ++ ",\n")) pr

/-! ## Stage formatting (formatter.go lines 486-514)

`Stage.formatCore` is the body of `Stage.format` with the chunk-width
recompute *trigger* abstracted as a boolean, so that the source behaviour
(`Stage.format`, trigger computed from all four parameter lists) and the
claim C9 reading (`Stage.formatClaimC9`, trigger computed from the primary
lists alone) provably differ only in that condition. -/

/-- The widths measured over all four parameter lists of a stage
(formatter.go lines 489-491). -/
def stageSharedWidths (s : Stage) : Widths :=
  measureParamsWidths
    [s.inParams.getWidths, s.outParams.getWidths, s.chunkIns.getWidths, s.chunkOuts.getWidths]

/-- The widths measured over the primary (non-chunk) parameter lists only. -/
def stagePrimaryWidths (s : Stage) : Widths :=
  measureParamsWidths [s.inParams.getWidths, s.outParams.getWidths]

def Stage.formatCore (s : Stage) (pr : Printer) (trigger : Bool) : Printer :=
  let pr := pr.printComments s.node ""
  let w := stageSharedWidths s
  let mw := goMax w.modeW "src".length
  let pr := pr.writeString ("stage " ++ s.id ++ "(\n")
  let pr := s.inParams.format pr mw w.typeW w.idW w.helpW
  let pr := s.outParams.format pr mw w.typeW w.idW w.helpW
  let pr := s.src.format pr mw w.typeW w.idW
  let iwhw : Nat × Nat :=
    if trigger then
      let wc := measureParamsWidths [s.chunkIns.getWidths, s.chunkOuts.getWidths]
      (wc.idW, wc.helpW)
    else (w.idW, w.helpW)
  let pr :=
    if s.split then
      let pr := pr.writeString ") split (\n"
      let pr := s.chunkIns.format pr mw w.typeW iwhw.1 iwhw.2
      s.chunkOuts.format pr mw w.typeW iwhw.1 iwhw.2
    else pr
  let pr := match s.resources with | some r => r.format pr | none => pr
  let pr := match s.retain with | some rt => rt.format pr | none => pr
  pr.writeString ")\n"

/-- `Stage.format`: the source recomputes the chunk id/help widths whenever
the widths measured over *all four* parameter lists exceed 30/20
(formatter.go line 498). -/
def Stage.format (s : Stage) (pr : Printer) : Printer :=
  s.formatCore pr ((stageSharedWidths s).idW > 30 || (stageSharedWidths s).helpW > 20)

/-- Claim model, not translated from the source: C9's reading, in which the
recompute trigger uses "the identifier width computed from the primary
parameters" (the stage in/out lists alone) rather than the shared widths. -/
def Stage.formatClaimC9 (s : Stage) (pr : Printer) : Printer :=
  s.formatCore pr ((stagePrimaryWidths s).idW > 30 || (stagePrimaryWidths s).helpW > 20)

/-! ## Modifier canonicalization (formatter.go lines 405-456) -/

def localKw : String := "local"

def preflightKw : String := "preflight"

def volatileKw : String := "volatile"

def disabledKw : String := "disabled"

/-- The bound-form modifier list of a call (`self.Modifiers.Bindings.List`,
`[]` when the table is nil). -/
def CallStm.origModList (c : CallStm) : List BindStm :=
  match c.modifiers.bindings with
  | some bs => bs.list
  | none => []

/-- The node of the (possibly freshly allocated) modifier binding table:
Go allocates `&BindStms{Node: self.Node}` when `Modifiers.Bindings` is nil
(formatter.go lines 407-411). -/
def CallStm.modBindingsNode (c : CallStm) : AstNode :=
  match c.modifiers.bindings with
  | some bs => bs.node
  | none => c.node

/-- The `foundMods` scan (formatter.go lines 416-426): is a bound-form
binding with this id present? -/
def foundIn (l : List BindStm) (k : String) : Bool := l.any (fun b => b.id == k)

/-- The bound-form entry `<k> = true` appended for a bare modifier keyword
(formatter.go lines 428-433 and analogues). -/
def CallStm.bareEntry (c : CallStm) (k : String) : BindStm :=
  { node := c.modBindingsNode, id := k,
    exp := Exp.val c.modBindingsNode KindBool (.bool true), sweep := false, tname := "" }

/-- The modifier binding list after the bare-to-bound conversion appends
(formatter.go lines 427-450): `local`, then `preflight`, then `volatile`,
each only when the bare flag is set and no bound form was found. -/
def CallStm.mergedModList (c : CallStm) : List BindStm :=
  let orig := c.origModList
  orig ++
    (if c.modifiers.localMod && !foundIn orig localKw then [c.bareEntry localKw] else []) ++
    (if c.modifiers.preflight && !foundIn orig preflightKw then [c.bareEntry preflightKw]
      else []) ++
    (if c.modifiers.volatile && !foundIn orig volatileKw then [c.bareEntry volatileKw] else [])

def insertBindById (b : BindStm) : List BindStm → List BindStm
  | [] => [b]
  | x :: xs => if strLe b.id x.id then b :: x :: xs else x :: insertBindById b xs

/-- Stable insertion sort by binding id, modelling the
`sort.Slice(..., List[i].Id < List[j].Id)` of formatter.go lines 451-453
(`sort.Slice` is unstable, but modifier ids are distinct in well-formed
input, where every sort by id produces the same list). -/
def sortBindsById : List BindStm → List BindStm
  | [] => []
  | b :: rest => insertBindById b (sortBindsById rest)

/-- The canonical modifier binding list the formatter emits and stores back
into the call. -/
def CallStm.canonicalModList (c : CallStm) : List BindStm :=
  sortBindsById c.mergedModList

/-- The guard of the `using (` clause (formatter.go lines 405-406):
`Bindings != nil && len(List) > 0 || Local || Preflight || Volatile`. -/
def CallStm.usingEmit (c : CallStm) : Bool :=
  (match c.modifiers.bindings with
    | some bs => !bs.list.isEmpty
    | none => false) ||
  c.modifiers.localMod || c.modifiers.preflight || c.modifiers.volatile

/-- The call statement as left behind by `CallStm.format`: when the using
clause is emitted, the in-place appends and sort replace
`Modifiers.Bindings` with the canonical table. -/
def CallStm.afterFormat (c : CallStm) : CallStm :=
  if c.usingEmit then
    { c with modifiers :=
      { c.modifiers with bindings := some ⟨c.modBindingsNode, c.canonicalModList⟩ } }
  else c

/-- `CallStm.format` (formatter.go lines 392-458); returns the printer and
the (possibly mutated) call. -/
def CallStm.format (c : CallStm) (pr : Printer) (pre : String) : Printer × CallStm :=
  let pr := pr.printComments c.node pre
  let pr := pr.writeString (pre ++ "call " ++ c.decId)
  let pr := if c.id ≠ c.decId then pr.writeString (" as " ++ c.id) else pr
  let pr := pr.writeString "(\n"
  let pr := c.bindings.format pr pre
  let pr := pr.writeString pre
  let res : Printer × CallStm :=
    if c.usingEmit then
      let bs : BindStms := ⟨c.modBindingsNode, c.canonicalModList⟩
      let pr := pr.writeString ") using (\n"
      let pr := bs.format pr pre
      (pr.writeString pre,
        { c with modifiers := { c.modifiers with bindings := some bs } })
    else (pr, c)
  (res.1.writeString ")\n", res.2)

/-- `ReturnStm.format` (formatter.go lines 460-467). -/
def ReturnStm.format (r : ReturnStm) (pr : Printer) : Printer :=
  let pr := pr.printComments r.node INDENT
  let pr := pr.writeString (INDENT ++ "return (\n")
  let pr := r.bindings.format pr INDENT
  pr.writeString (INDENT ++ ")\n")

/-- `PipelineRetains.format` (formatter.go lines 469-481). -/
def PipelineRetains.format (rt : PipelineRetains) (pr : Printer) : Printer :=
  let pr := pr.printComments rt.node INDENT
  let pr := pr.writeString (INDENT ++ "retain (\n")
  let pr := rt.refs.foldl
    (fun (pr : Printer) ref => pr.writeString (INDENT ++ INDENT ++ ref.format ++ ",\n")) pr
  pr.writeString (INDENT ++ ")\n")

/-! ## Call-output reference collection and topological sorting -/

mutual
def refIdsExp : Nat → Exp → List String
  | _, .ref r => if r.kind = KindCall then [r.id] else []
  | 0, .val _ _ _ => []
  | fuel + 1, .val _ _ v =>
    match v with
    | .array xs => refIdsList fuel xs
    | .map kvs => refIdsKVs fuel kvs
    | _ => []
def refIdsList : Nat → ExpList → List String
  | _, .nil => []
  | 0, .cons _ _ => []
  | fuel + 1, .cons e rest => refIdsExp fuel e ++ refIdsList fuel rest
def refIdsKVs : Nat → KVList → List String
  | _, .nil => []
  | 0, .cons _ _ _ => []
  | fuel + 1, .cons _ v rest => refIdsExp fuel v ++ refIdsKVs fuel rest
end

/-- All call ids named by call-output references inside an expression. -/
def Exp.refIds (e : Exp) : List String := refIdsExp (e.size + 1) e

def BindStms.refIds (bs : BindStms) : List String :=
  (bs.list.map (fun b => b.exp.refIds)).flatten

/-- The call ids a call's bindings reference. -/
def CallStm.refIds (c : CallStm) : List String := c.bindings.refIds

/-- A call is ready once every call of this pipeline it references has been
emitted (references to ids that are not calls of the pipeline do not
constrain the order). -/
def readyCall (allIds emitted : List String) (c : CallStm) : Bool :=
  c.refIds.all (fun i => !allIds.contains i || emitted.contains i)

/-- Remove the first element satisfying `p`, keeping the rest in order. -/
def extractFirst {α : Type} (p : α → Bool) : List α → Option (α × List α)
  | [] => none
  | x :: xs =>
    if p x then some (x, xs)
    else
      match extractFirst p xs with
      | none => none
      | some (y, ys) => some (y, x :: ys)

def topoGo (allIds : List String) : Nat → List CallStm → List String → List CallStm
  | 0, remaining, _ => remaining
  | fuel + 1, remaining, emitted =>
    match extractFirst (readyCall allIds emitted) remaining with
    | none => remaining
    | some (c, rest) => c :: topoGo allIds fuel rest (c.id :: emitted)

/-- Modelled from the spec: `Pipeline.format` calls `self.topoSort()`
(formatter.go line 378), whose definition is not under `src/`.  Per spec
§4.4, calls must be emitted in a stable topological order with respect to
call-output references, with the minimal reordering needed to satisfy
dependencies.  Model: repeatedly emit the first call, in original order,
whose referenced calls have all been emitted; if no call is ready (a
dependency cycle, which the spec rules out as a programming error), the
remaining calls are emitted in their original order. -/
def topoSortCalls (calls : List CallStm) : List CallStm :=
  topoGo (calls.map (fun c => c.id)) calls.length calls []

def topoOkGo (allIds : List String) : Nat → List CallStm → List String → Bool
  | 0, remaining, _ => remaining.isEmpty
  | fuel + 1, remaining, emitted =>
    match extractFirst (readyCall allIds emitted) remaining with
    | none => remaining.isEmpty
    | some (c, rest) => topoOkGo allIds fuel rest (c.id :: emitted)

/-- Decidable check that the sort completes by dependency selection alone
(no cycle fallback). -/
def topoOk (calls : List CallStm) : Bool :=
  topoOkGo (calls.map (fun c => c.id)) calls.length calls []

/-! ## Pipeline, callables and Ast formatting (formatter.go lines 367-390,
576-591, 596-661) -/

/-- The call loop of `Pipeline.format` (formatter.go lines 379-382): each
call is preceded by a newline, formatted at one indent, and collected back
(the Go code mutates the calls in place). -/
def formatCallsFold : List CallStm → Printer → Printer × List CallStm
  | [], pr => (pr, [])
  | c :: cs, pr =>
    let pc := c.format (pr.writeString NEWLINE) INDENT
    let rest := formatCallsFold cs pc.1
    (rest.1, pc.2 :: rest.2)

/-- `Pipeline.format` (formatter.go lines 367-390); `self.topoSort()`
reorders the call list in place, and each call may be mutated by its own
format, so the updated pipeline is returned next to the printer. -/
def Pipeline.format (pl : Pipeline) (pr : Printer) : Printer × Pipeline :=
  let pr := pr.printComments pl.node ""
  let w := measureParamsWidths [pl.inParams.getWidths, pl.outParams.getWidths]
  let pr := pr.writeString ("pipeline " ++ pl.id ++ "(\n")
  let pr := pl.inParams.format pr w.modeW w.typeW w.idW w.helpW
  let pr := pl.outParams.format pr w.modeW w.typeW w.idW w.helpW
  let pr := pr.writeString ")\n\x7b"
  let res := formatCallsFold (topoSortCalls pl.calls) pr
  let pr := res.1.writeString NEWLINE
  let pr := pl.ret.format pr
  let pr :=
    match pl.retain with
    | some r => r.format (pr.writeString NEWLINE)
    | none => pr
  (pr.writeString "\x7d\n", pl.withCalls res.2)

def Callable.format (c : Callable) (pr : Printer) : Printer :=
  match c with
  | .stage s => s.format pr
  | .pipeline pl => (pl.format pr).1

/-- `Callables.format` (formatter.go lines 576-583). -/
def Callables.format (cs : Callables) (pr : Printer) : Printer :=
  (cs.list.foldl
    (fun (acc : Printer × Bool) c =>
      let pr := if acc.2 then acc.1.writeString NEWLINE else acc.1
      (c.format pr, true))
    (pr, false)).1

/-- `UserType.format` (formatter.go lines 588-591). -/
def UserType.format (t : UserType) (pr : Printer) : Printer :=
  (pr.printComments t.node "").writeString ("filetype " ++ t.id ++ ";\n")

def walkTopF : Nat → SourceFile → Option SourceFile
  | 0, f => some f
  | fuel + 1, f =>
    match f.includedFrom with
    | [] => some f
    | loc :: _ =>
      match loc.file with
      | none => none
      | some g => walkTopF fuel g

/-- The `topFile` walk of `Ast.format` (formatter.go lines 610-612):
follow `IncludedFrom[0].File` upward.  (On a cyclic include chain the Go
loop would not terminate; the fuel is far beyond any acyclic chain.) -/
def SourceFile.walkTop (f : SourceFile) : Option SourceFile := walkTopF 1000 f

def commentPath (c : CommentBlock) : String :=
  match c.loc.file with
  | some f => f.fullPath
  | none => ""

/-- The grouping of the Ast comment pool by file path
(formatter.go lines 619-623). -/
def groupComments (cs : List CommentBlock) : List (String × List CommentBlock) :=
  cs.foldl (fun acc c => appendAssoc acc (commentPath c) c) []

/-- `Ast.format` (formatter.go lines 596-661).

Two pieces of Go map iteration are order-parameters here:
* `pick`: the arbitrary element `for _, f := range self.Files { … break }`
  starts the top-file walk from (meaningful only when `files` is nonempty);
* `dumpOrder`: the order in which `DumpComments` ranges over the remaining
  per-file comment map at the end. -/
def Ast.format (self : Ast) (writeIncludes : Bool) (pick : Option SourceFile)
    (dumpOrder : List String) : String :=
  let pr : Printer :=
    { buf := ""
      comments := groupComments self.comments
      lastComment := .mk 0
        (if self.files.isEmpty then none
         else match pick with
           | some f => f.walkTop
           | none => none) }
  let st :=
    if writeIncludes then
      self.includes.foldl
        (fun (acc : Printer × Bool) d =>
          ((acc.1.printComments d.node "").writeString
            ("@include \"" ++ d.value ++ "\"" ++ NEWLINE), true))
        (pr, false)
    else (pr, false)
  let pr := st.1
  let needSpacer := st.2
  let pr := if needSpacer && !self.userTypes.isEmpty then pr.writeString NEWLINE else pr
  let st := self.userTypes.foldl (fun (acc : Printer × Bool) t => (t.format acc.1, true))
    (pr, needSpacer)
  let pr := st.1
  let needSpacer := st.2
  let pr := if needSpacer && !self.callables.list.isEmpty then pr.writeString NEWLINE else pr
  let pr := self.callables.format pr
  let pr :=
    match self.call with
    | some c =>
      let pr := if !self.callables.list.isEmpty || needSpacer then pr.writeString NEWLINE else pr
      (c.format pr "").1
    | none => pr
  (pr.dumpComments dumpOrder).buf

/-! ## `JsonDumpAsts` (formatter.go lines 710-739)

The export builds three maps keyed by identifier with plain Go map
assignment over the input list of ASTs in order; the JSON serialization
itself is omitted, the maps are modelled as functions. -/

def updMap {α : Type} (key : α → String) (t : α) (m : String → Option α) : String → Option α :=
  fun k => if k = key t then some t else m k

def insertAllByKey {α : Type} (key : α → String) (items : List α) (m : String → Option α) :
    String → Option α :=
  items.foldl (fun acc t => updMap key t acc) m

def jsonDumpUserTypes (asts : List Ast) : String → Option UserType :=
  asts.foldl (fun m ast => insertAllByKey (fun t => t.id) ast.userTypes m) (fun _ => none)

def jsonDumpStages (asts : List Ast) : String → Option Stage :=
  asts.foldl (fun m ast => insertAllByKey (fun s => s.id) ast.stages m) (fun _ => none)

def jsonDumpPipelines (asts : List Ast) : String → Option Pipeline :=
  asts.foldl (fun m ast => insertAllByKey (fun p => p.id) ast.pipelines m) (fun _ => none)

/-! ## Concrete instances used by the theorems below -/

/-- A location-less AST node (file `none`, line 0, no comments). -/
def n0 : AstNode := ⟨.mk 0 none, [], []⟩

/-- An empty printer. -/
def p0 : Printer := ⟨"", [], .mk 0 none⟩

def mkBindEx (i : String) (e : Exp) : BindStm := ⟨n0, i, e, false, ""⟩

def selfRefEx (i : String) : Exp := .ref ⟨n0, KindSelf, i, ""⟩

def callRefEx (i o : String) : Exp := .ref ⟨n0, KindCall, i, o⟩

def mods0 : Modifiers := ⟨false, false, false, none⟩

/-- The five calls of `TestFormatTopoSort` (formatter_test.go lines 314-388),
in their declared order `[STAGE_3, STAGE_1, STAGE_2, STAGE_4, STAGE_5]`. -/
def S3ex : CallStm := ⟨n0, mods0, "STAGE_3", "STAGE_3",
  ⟨n0, [mkBindEx "in1" (selfRefEx "input"), mkBindEx "in2" (callRefEx "STAGE_2" "output")]⟩⟩

def S1ex : CallStm := ⟨n0, mods0, "STAGE_1", "STAGE", ⟨n0, [mkBindEx "input" (selfRefEx "input")]⟩⟩

def S2ex : CallStm := ⟨n0, mods0, "STAGE_2", "STAGE", ⟨n0, [mkBindEx "input" (selfRefEx "input")]⟩⟩

def S4ex : CallStm := ⟨n0, mods0, "STAGE_4", "STAGE",
  ⟨n0, [mkBindEx "input" (callRefEx "STAGE_2" "output")]⟩⟩

def S5ex : CallStm := ⟨n0, mods0, "STAGE_5", "STAGE_3",
  ⟨n0, [mkBindEx "in1" (selfRefEx "input"), mkBindEx "in2" (callRefEx "STAGE_2" "output")]⟩⟩

/-- Three calls declared `[Z, X, Y]` where `Z` references `Y`'s output and
`X`, `Y` are independent of everything. -/
def zCallEx : CallStm := ⟨n0, mods0, "Z", "Z", ⟨n0, [mkBindEx "a" (callRefEx "Y" "out")]⟩⟩

def xCallEx : CallStm := ⟨n0, mods0, "X", "X", ⟨n0, [mkBindEx "a" (selfRefEx "i")]⟩⟩

def yCallEx : CallStm := ⟨n0, mods0, "Y", "Y", ⟨n0, [mkBindEx "a" (selfRefEx "i")]⟩⟩

/-- Two source files with one leftover (end-of-file) comment each. -/
def fileAEx : SourceFile := .mk "a.mro" "/a.mro" []

def fileBEx : SourceFile := .mk "b.mro" "/b.mro" []

def cmAEx : CommentBlock := ⟨.mk 1 (some fileAEx), "# a"⟩

def cmBEx : CommentBlock := ⟨.mk 1 (some fileBEx), "# b"⟩

/-- An AST whose whole content is one trailing comment in each of two files:
nothing consumes the comments, so `DumpComments` flushes both at the end. -/
def astC2 : Ast :=
  ⟨[], [], [], [], ⟨[]⟩, none, [("/a.mro", fileAEx), ("/b.mro", fileBEx)], [cmAEx, cmBEx]⟩

/-- A call with the bare `local` modifier, no modifier binding table and no
argument bindings. -/
def callC4 : CallStm := ⟨n0, ⟨true, false, false, none⟩, "X", "X", ⟨n0, []⟩⟩

/-- A bound-form `disabled = ADD_KEY3.disable_example` binding. -/
def dBindEx : BindStm := ⟨n0, "disabled", callRefEx "ADD_KEY3" "disable_example", false, ""⟩

/-- A bound-form `volatile = false` binding. -/
def vBindEx : BindStm := ⟨n0, "volatile", Exp.val n0 KindBool (.bool false), false, ""⟩

/-- A call with the bare `local` modifier and a bound-form table holding a
`disabled =` reference and a `volatile = false` binding. -/
def callC5 : CallStm :=
  ⟨n0, ⟨true, false, false, some ⟨n0, [dBindEx, vBindEx]⟩⟩, "X", "X", ⟨n0, []⟩⟩

/-- A two-alternative sweep binding (`value = sweep("two", "deux")`). -/
def xs2Ex : ExpList :=
  .cons (Exp.val n0 KindString (.str "two")) (.cons (Exp.val n0 KindString (.str "deux")) .nil)

def sweepBindEx : BindStm := ⟨n0, "value", Exp.val n0 KindArray (.array xs2Ex), true, ""⟩

/-- A one-alternative sweep binding. -/
def xs1Ex : ExpList := .cons (Exp.val n0 KindString (.str "five")) .nil

def sweep1BindEx : BindStm := ⟨n0, "value", Exp.val n0 KindArray (.array xs1Ex), true, ""⟩

/-- A split stage whose primary parameters are narrow (id width 1, help
width 15) while a chunk parameter has a 31-character identifier: the
shared widths exceed the 30-character trigger but the primary-only widths
do not. -/
def stageC9 : Stage :=
  ⟨n0, "S",
    ⟨[⟨n0, "int", 0, "a", "helphelphelphel", false⟩]⟩,
    ⟨[]⟩,
    ⟨n0, "py", "x", []⟩,
    ⟨[⟨n0, "int", 0, "abcdefghijklmnopqrstuvwxyzabcde", "", false⟩]⟩,
    ⟨[⟨n0, "int", 0, "b", "h", "o", false⟩]⟩,
    true, none, none⟩

/-- A stage with no parameters at all (both width triggers are false). -/
def stageSmall : Stage :=
  ⟨n0, "T", ⟨[]⟩, ⟨[]⟩, ⟨n0, "py", "x", []⟩, ⟨[]⟩, ⟨[]⟩, false, none, none⟩

/-- Shorthand for formatting a float value (C6). -/
def floatFmt (f : F64) : String := (Exp.val n0 KindFloat (.float f)).format ""

/-- Shorthand for formatting an int value (C6). -/
def intFmt (n : Int) : String := (Exp.val n0 KindInt (.int n)).format ""

/-! ## Helper lemmas -/

theorem contains_iff_mem_str {l : List String} {s : String} : l.contains s = true ↔ s ∈ l := by
  simp [List.contains, List.elem_iff]

theorem lexLe_total : ∀ as bs : List Char, lexLe as bs = true ∨ lexLe bs as = true := by
  intro as
  induction as with
  | nil => intro bs; left; rfl
  | cons a as ih =>
    intro bs
    cases bs with
    | nil => right; rfl
    | cons b bs =>
      by_cases h1 : a.toNat < b.toNat
      · left; simp [lexLe, h1]
      · by_cases h2 : b.toNat < a.toNat
        · right; simp [lexLe, h1, h2]
        · have h3 : b.toNat = a.toNat := by omega
          simp [lexLe, h1, h2, h3]
          exact ih bs

theorem lexLe_trans : ∀ as bs cs : List Char,
    lexLe as bs = true → lexLe bs cs = true → lexLe as cs = true := by
  intro as
  induction as with
  | nil => intro bs cs _ _; rfl
  | cons a as ih =>
    intro bs cs h1 h2
    cases bs with
    | nil => simp [lexLe] at h1
    | cons b bs =>
      cases cs with
      | nil => simp [lexLe] at h2
      | cons c cs =>
        by_cases hab : a.toNat < b.toNat <;> by_cases hbc : b.toNat < c.toNat
        · simp [lexLe, show a.toNat < c.toNat by omega]
        · by_cases hcb : c.toNat < b.toNat
          · simp [lexLe, hbc, hcb] at h2
          · have : b.toNat = c.toNat := by omega
            simp [lexLe, show a.toNat < c.toNat by omega]
        · by_cases hba : b.toNat < a.toNat
          · simp [lexLe, hab, hba] at h1
          · have : a.toNat = b.toNat := by omega
            simp [lexLe, show a.toNat < c.toNat by omega]
        · by_cases hba : b.toNat < a.toNat
          · simp [lexLe, hab, hba] at h1
          · by_cases hcb : c.toNat < b.toNat
            · simp [lexLe, hbc, hcb] at h2
            · have hac1 : ¬ a.toNat < c.toNat := by omega
              have hac2 : ¬ c.toNat < a.toNat := by omega
              simp [lexLe, hab, hba] at h1
              simp [lexLe, hbc, hcb] at h2
              simp [lexLe, hac1, hac2]
              exact ih bs cs h1 h2

theorem strLe_total (a b : String) : strLe a b = true ∨ strLe b a = true :=
  lexLe_total a.data b.data

theorem strLe_trans {a b c : String} (h1 : strLe a b = true) (h2 : strLe b c = true) :
    strLe a c = true :=
  lexLe_trans a.data b.data c.data h1 h2

/-- Elements of an `insertBindById` result. -/
theorem mem_insertBindById {b x : BindStm} : ∀ {l : List BindStm},
    x ∈ insertBindById b l ↔ x = b ∨ x ∈ l := by
  intro l
  induction l with
  | nil => simp [insertBindById]
  | cons y ys ih =>
    by_cases h : strLe b.id y.id = true
    · simp [insertBindById, h]
    · simp [insertBindById, h, ih]
      tauto

theorem insertBindById_perm (b : BindStm) : ∀ l : List BindStm,
    (insertBindById b l).Perm (b :: l) := by
  intro l
  induction l with
  | nil => simp [insertBindById]
  | cons y ys ih =>
    by_cases h : strLe b.id y.id = true
    · simp [insertBindById, h]
    · simp only [insertBindById, h, if_neg]
      exact (ih.cons y).trans (List.Perm.swap b y ys)

theorem sortBindsById_perm : ∀ l : List BindStm, (sortBindsById l).Perm l := by
  intro l
  induction l with
  | nil => exact List.Perm.refl _
  | cons b rest ih =>
    exact (insertBindById_perm b (sortBindsById rest)).trans (ih.cons b)

theorem insertBindById_pairwise {b : BindStm} : ∀ {l : List BindStm},
    l.Pairwise (fun x y => strLe x.id y.id = true) →
    (insertBindById b l).Pairwise (fun x y => strLe x.id y.id = true) := by
  intro l
  induction l with
  | nil => intro _; simp [insertBindById]
  | cons y ys ih =>
    intro h
    rcases List.pairwise_cons.mp h with ⟨hy, hys⟩
    by_cases hle : strLe b.id y.id = true
    · simp only [insertBindById, hle, if_pos]
      refine List.pairwise_cons.mpr ⟨?_, h⟩
      intro z hz
      rcases List.mem_cons.mp hz with rfl | hz
      · exact hle
      · exact strLe_trans hle (hy z hz)
    · simp only [insertBindById, hle, if_neg]
      refine List.pairwise_cons.mpr ⟨?_, ih hys⟩
      intro z hz
      rcases mem_insertBindById.mp hz with rfl | hz
      · rcases strLe_total z.id y.id with h' | h'
        · exact absurd h' hle
        · exact h'
      · exact hy z hz

theorem sortBindsById_pairwise : ∀ l : List BindStm,
    (sortBindsById l).Pairwise (fun x y => strLe x.id y.id = true) := by
  intro l
  induction l with
  | nil => simp [sortBindsById]
  | cons b rest ih => exact insertBindById_pairwise ih

/-- Decomposition of a successful `extractFirst`. -/
theorem extractFirst_decomp {α : Type} (p : α → Bool) :
    ∀ (l : List α) (c : α) (rest : List α), extractFirst p l = some (c, rest) →
    p c = true ∧ ∃ pre suf, l = pre ++ c :: suf ∧ rest = pre ++ suf ∧ ∀ x ∈ pre, p x = false := by
  intro l
  induction l with
  | nil => intro c rest h; simp [extractFirst] at h
  | cons x xs ih =>
    intro c rest h
    by_cases hx : p x = true
    · simp only [extractFirst, hx, if_pos, Option.some.injEq, Prod.mk.injEq] at h
      obtain ⟨rfl, rfl⟩ := h
      exact ⟨hx, [], xs, rfl, rfl, by simp⟩
    · simp only [extractFirst, hx, if_neg] at h
      cases hrec : extractFirst p xs with
      | none => rw [hrec] at h; simp at h
      | some pr =>
        obtain ⟨y, ys⟩ := pr
        rw [hrec] at h
        simp only [Option.some.injEq, Prod.mk.injEq] at h
        obtain ⟨rfl, rfl⟩ := h
        obtain ⟨hpy, pre, suf, hxs, hys, hpre⟩ := ih c ys hrec
        refine ⟨hpy, x :: pre, suf, by simp [hxs], by simp [hys], ?_⟩
        intro z hz
        rcases List.mem_cons.mp hz with rfl | hz
        · simpa using hx
        · exact hpre z hz

theorem extractFirst_none {α : Type} (p : α → Bool) :
    ∀ l : List α, extractFirst p l = none → ∀ x ∈ l, p x = false := by
  intro l
  induction l with
  | nil => intro _ x hx; simp at hx
  | cons x xs ih =>
    intro h z hz
    by_cases hx : p x = true
    · simp [extractFirst, hx] at h
    · simp only [extractFirst, hx, if_neg] at h
      cases hrec : extractFirst p xs with
      | none =>
        rcases List.mem_cons.mp hz with rfl | hz
        · simpa using hx
        · exact ih hrec z hz
      | some pr => rw [hrec] at h; obtain ⟨y, ys⟩ := pr; simp at h

/-- `topoGo` permutes its input. -/
theorem topoGo_perm (allIds : List String) :
    ∀ (fuel : Nat) (remaining : List CallStm) (emitted : List String),
    (topoGo allIds fuel remaining emitted).Perm remaining := by
  intro fuel
  induction fuel with
  | zero => intro remaining emitted; exact List.Perm.refl _
  | succ fuel ih =>
    intro remaining emitted
    cases hrec : extractFirst (readyCall allIds emitted) remaining with
    | none => simp [topoGo, hrec]
    | some pr =>
      obtain ⟨c, rest⟩ := pr
      obtain ⟨_, pre, suf, hl, hrest, _⟩ := extractFirst_decomp _ _ _ _ hrec
      simp only [topoGo, hrec]
      refine ((ih rest (c.id :: emitted)).cons c).trans ?_
      rw [hl, hrest]
      exact (List.perm_middle).symm

theorem topoSortCalls_perm (calls : List CallStm) : (topoSortCalls calls).Perm calls :=
  topoGo_perm _ _ _ _

theorem readyCall_spec {allIds emitted : List String} {c : CallStm}
    (h : readyCall allIds emitted c = true) :
    ∀ aid ∈ c.refIds, aid ∈ allIds → aid ∈ emitted := by
  intro aid ha hin
  have h' := List.all_eq_true.mp h aid ha
  rw [Bool.or_eq_true, Bool.not_eq_true'] at h'
  rcases h' with h' | h'
  · rw [← contains_iff_mem_str] at hin
    rw [hin] at h'
    exact absurd h' (by simp)
  · exact contains_iff_mem_str.mp h'

/-- Every referenced pipeline call is emitted before the call that
references it, provided the sort completes without the cycle fallback. -/
theorem topoGo_before (allIds : List String) :
    ∀ (fuel : Nat) (remaining : List CallStm) (emitted : List String)
      (pre : List CallStm) (b : CallStm) (suf : List CallStm),
    topoOkGo allIds fuel remaining emitted = true →
    topoGo allIds fuel remaining emitted = pre ++ b :: suf →
    ∀ aid, aid ∈ b.refIds → aid ∈ allIds →
    aid ∈ emitted ∨ aid ∈ pre.map (fun d => d.id) := by
  intro fuel
  induction fuel with
  | zero =>
    intro remaining emitted pre b suf hok hgo aid _ _
    have : remaining = [] := by simpa [topoOkGo, List.isEmpty_iff] using hok
    rw [topoGo, this] at hgo
    exact absurd hgo (by simp)
  | succ fuel ih =>
    intro remaining emitted pre b suf hok hgo aid haid hall
    cases hrec : extractFirst (readyCall allIds emitted) remaining with
    | none =>
      rw [topoOkGo, hrec] at hok
      have : remaining = [] := List.isEmpty_iff.mp hok
      rw [topoGo, hrec, this] at hgo
      exact absurd hgo (by simp)
    | some pr =>
      obtain ⟨c, rest⟩ := pr
      rw [topoOkGo, hrec] at hok
      rw [topoGo, hrec] at hgo
      obtain ⟨hready, _⟩ := extractFirst_decomp _ _ _ _ hrec
      cases pre with
      | nil =>
        simp only [List.nil_append, List.cons.injEq] at hgo
        obtain ⟨rfl, _⟩ := hgo
        exact Or.inl (readyCall_spec hready aid haid hall)
      | cons p1 pre' =>
        simp only [List.cons_append, List.cons.injEq] at hgo
        obtain ⟨rfl, hgo⟩ := hgo
        rcases ih rest (c.id :: emitted) pre' b suf hok hgo aid haid hall with hmem | hmem
        · rcases List.mem_cons.mp hmem with rfl | hmem
          · exact Or.inr (by simp)
          · exact Or.inl hmem
        · exact Or.inr (by simp [hmem])

/-- When the declared order already satisfies every dependency, the sort is
the identity. -/
theorem topoGo_fix (allIds : List String) :
    ∀ (fuel : Nat) (remaining : List CallStm) (emitted : List String),
    (∀ (xs : List CallStm) (c : CallStm) (ys : List CallStm), remaining = xs ++ c :: ys →
      ∀ aid ∈ c.refIds, aid ∈ allIds → aid ∈ emitted ∨ aid ∈ xs.map (fun d => d.id)) →
    topoGo allIds fuel remaining emitted = remaining := by
  intro fuel
  induction fuel with
  | zero => intro remaining emitted _; rfl
  | succ fuel ih =>
    intro remaining emitted hdep
    cases remaining with
    | nil => simp [topoGo, extractFirst]
    | cons c rest =>
      have hready : readyCall allIds emitted c = true := by
        rw [readyCall, List.all_eq_true]
        intro aid haid
        rw [Bool.or_eq_true, Bool.not_eq_true']
        by_cases hin : aid ∈ allIds
        · rcases hdep [] c rest rfl aid haid hin with h | h
          · exact Or.inr (contains_iff_mem_str.mpr h)
          · exact absurd h (by simp)
        · exact Or.inl (by
            rw [← Bool.not_eq_true]
            intro hcon
            exact hin (contains_iff_mem_str.mp hcon))
      rw [topoGo]
      simp only [extractFirst, hready, if_pos]
      rw [ih rest (c.id :: emitted) ?_]
      intro xs d ys hrest aid haid hin
      rcases hdep (c :: xs) d ys (by simp [hrest]) aid haid hin with h | h
      · exact Or.inl (by simp [h])
      · rw [List.map_cons, List.mem_cons] at h
        rcases h with h' | h'
        · exact Or.inl (by simp [h'])
        · exact Or.inr h'

/-! Helper lemmas for the `JsonDumpAsts` maps. -/

theorem insertAllByKey_eq {α : Type} (key : α → String) :
    ∀ (items : List α) (m : String → Option α) (k : String),
    insertAllByKey key items m k =
      match items.reverse.find? (fun t => key t == k) with
      | some t => some t
      | none => m k := by
  intro items
  induction items with
  | nil => intro m k; simp [insertAllByKey]
  | cons t ts ih =>
    intro m k
    have hstep : insertAllByKey key (t :: ts) m = insertAllByKey key ts (updMap key t m) := rfl
    rw [hstep, ih]
    rw [List.reverse_cons, List.find?_append]
    cases hfind : ts.reverse.find? (fun t => key t == k) with
    | some u => simp [Option.or]
    | none =>
      by_cases hk : (key t == k) = true
      · simp [Option.or, updMap, List.find?, hk, show k = key t from (eq_of_beq hk).symm]
      · have hne : k ≠ key t := fun h => absurd (beq_iff_eq.mpr h.symm) (by simpa using hk)
        simp [Option.or, updMap, List.find?, hk, hne]

theorem jsonFold_eq {α : Type} (key : α → String) (proj : Ast → List α) :
    ∀ (asts : List Ast) (m : String → Option α) (k : String),
    (asts.foldl (fun m ast => insertAllByKey key (proj ast) m) m) k =
      match ((asts.map proj).flatten.reverse.find? (fun t => key t == k)) with
      | some t => some t
      | none => m k := by
  intro asts
  induction asts with
  | nil => intro m k; simp
  | cons a asts ih =>
    intro m k
    have hstep : ((a :: asts).foldl (fun m ast => insertAllByKey key (proj ast) m) m) =
        (asts.foldl (fun m ast => insertAllByKey key (proj ast) m)
          (insertAllByKey key (proj a) m)) := rfl
    rw [hstep, ih]
    simp only [List.map_cons, List.flatten_cons, List.reverse_append, List.find?_append]
    cases hfind : (asts.map proj).flatten.reverse.find? (fun t => key t == k) with
    | some u => simp [Option.or]
    | none => simp [Option.or, insertAllByKey_eq]

theorem lastDeclWins {α : Type} (key : α → String) (proj : Ast → List α) (asts : List Ast)
    (k : String) :
    (asts.foldl (fun m ast => insertAllByKey key (proj ast) m) (fun _ => none)) k =
      (asts.map proj).flatten.reverse.find? (fun t => key t == k) := by
  rw [jsonFold_eq]
  cases (asts.map proj).flatten.reverse.find? (fun t => key t == k) <;> rfl

/-! Helper lemmas for formatter mutation (C4). -/

theorem goMax_left (a b : Nat) : a ≤ goMax a b := by
  unfold goMax; split <;> omega

theorem goMax_right (a b : Nat) : b ≤ goMax a b := by
  unfold goMax; split <;> omega

theorem goMax_cases (a b : Nat) : goMax a b = a ∨ goMax a b = b := by
  unfold goMax; split <;> simp

theorem callStm_format_snd (c : CallStm) (pr : Printer) (pre : String) :
    (c.format pr pre).2 = c.afterFormat := by
  unfold CallStm.format CallStm.afterFormat
  by_cases h : c.usingEmit = true <;> simp [h]

theorem formatCallsFold_snd : ∀ (l : List CallStm) (pr : Printer),
    (formatCallsFold l pr).2 = l.map CallStm.afterFormat := by
  intro l
  induction l with
  | nil => intro pr; rfl
  | cons c cs ih =>
    intro pr
    simp only [formatCallsFold, List.map_cons]
    rw [callStm_format_snd, ih]

theorem pipeline_format_snd (pl : Pipeline) (pr : Printer) :
    (pl.format pr).2 = pl.withCalls ((topoSortCalls pl.calls).map CallStm.afterFormat) := by
  unfold Pipeline.format
  simp only [formatCallsFold_snd]

/-! Helper lemmas for sweeps (C7). -/

theorem sweepLines_eq : ∀ (xs : ExpList) (vind : String),
    sweepLines xs vind =
      (xs.toList.map (fun v => vind ++ v.format vind ++ ",\n")).foldr (· ++ ·) ""
  | .nil, vind => rfl
  | .cons e rest, vind => by
    simp only [sweepLines, ExpList.toList, List.map_cons, List.foldr_cons]
    rw [sweepLines_eq rest vind]

/-! Helper lemmas for parameter column widths (C9). -/

theorem widthFold_mono (σ : Widths → Nat)
    (hmax : ∀ w p, σ w ≤ σ (paramWidthStep w p)) :
    ∀ (l : List Param) (w0 : Widths), σ w0 ≤ σ (l.foldl paramWidthStep w0) := by
  intro l
  induction l with
  | nil => intro w0; simp
  | cons x xs ih => intro w0; exact le_trans (hmax w0 x) (ih (paramWidthStep w0 x))

theorem widthFold_le (σ : Widths → Nat) (g : Param → Nat) (B : Nat)
    (hstep : ∀ w p, σ (paramWidthStep w p) = if g p < B then goMax (σ w) (g p) else σ w) :
    ∀ (l : List Param) (w0 : Widths) (p : Param), p ∈ l → g p < B →
      g p ≤ σ (l.foldl paramWidthStep w0) := by
  have hmax : ∀ w p, σ w ≤ σ (paramWidthStep w p) := by
    intro w p
    rw [hstep]
    split
    · exact goMax_left _ _
    · exact le_refl _
  intro l
  induction l with
  | nil => intro w0 p hp; simp at hp
  | cons x xs ih =>
    intro w0 p hp hB
    rcases List.mem_cons.mp hp with rfl | hp
    · have h1 : g p ≤ σ (paramWidthStep w0 p) := by
        rw [hstep, if_pos hB]; exact goMax_right _ _
      exact le_trans h1 (by simpa using widthFold_mono σ hmax xs (paramWidthStep w0 p))
    · exact ih (paramWidthStep w0 x) p hp hB

theorem widthFold_attained (σ : Widths → Nat) (g : Param → Nat) (B : Nat)
    (hstep : ∀ w p, σ (paramWidthStep w p) = if g p < B then goMax (σ w) (g p) else σ w) :
    ∀ (l : List Param) (w0 : Widths),
      σ (l.foldl paramWidthStep w0) = σ w0 ∨
      ∃ p ∈ l, g p = σ (l.foldl paramWidthStep w0) ∧ g p < B := by
  intro l
  induction l with
  | nil => intro w0; left; rfl
  | cons x xs ih =>
    intro w0
    rcases ih (paramWidthStep w0 x) with h | h
    · simp only [List.foldl_cons] at *
      by_cases hB : g x < B
      · rcases goMax_cases (σ w0) (g x) with hm | hm
        · left
          rw [h, hstep, if_pos hB, hm]
        · right
          exact ⟨x, List.mem_cons_self x xs, by rw [h, hstep, if_pos hB, hm], hB⟩
      · left
        rw [h, hstep, if_neg hB]
    · right
      obtain ⟨p, hp, hgp, hB⟩ := h
      exact ⟨p, List.mem_cons_of_mem x hp, by simpa using hgp, hB⟩

theorem inParams_getWidths_fold (ps : InParams) :
    ps.getWidths = (ps.list.map Param.inP).foldl paramWidthStep ⟨0, 0, 0, 0⟩ := by
  rw [InParams.getWidths, List.foldl_map]

theorem outParams_getWidths_fold (ps : OutParams) :
    ps.getWidths = (ps.list.map Param.outP).foldl paramWidthStep ⟨0, 0, 0, 0⟩ := by
  rw [OutParams.getWidths, List.foldl_map]

/-! Helper lemmas for modifier canonicalization (C5). -/

theorem countP_ifSingle (cond : Bool) (x : BindStm) (p : BindStm → Bool) :
    (if cond = true then [x] else []).countP p =
      if cond = true then (if p x = true then 1 else 0) else 0 := by
  by_cases h : cond = true <;> simp [h, List.countP_cons]

theorem mergedModList_countP (c : CallStm) (p : BindStm → Bool) :
    (c.mergedModList).countP p =
      (c.origModList).countP p +
      ((if c.modifiers.localMod && !foundIn c.origModList localKw then
          (if p (c.bareEntry localKw) = true then 1 else 0) else 0) +
       ((if c.modifiers.preflight && !foundIn c.origModList preflightKw then
          (if p (c.bareEntry preflightKw) = true then 1 else 0) else 0) +
        (if c.modifiers.volatile && !foundIn c.origModList volatileKw then
          (if p (c.bareEntry volatileKw) = true then 1 else 0) else 0))) := by
  unfold CallStm.mergedModList
  simp only [List.countP_append, countP_ifSingle]
  omega

theorem canonicalModList_countP (c : CallStm) (p : BindStm → Bool) :
    (c.canonicalModList).countP p = (c.mergedModList).countP p :=
  (sortBindsById_perm _).countP_eq p

/-! ## Claim theorems -/

/-- C2: the claim that `Ast.format` is deterministic fails in the code: the
`DumpComments` pass ranges over a Go map whose iteration order varies
between runs.  For an AST carrying one leftover end-of-file comment in each
of two files, the two possible iteration orders (both permutations of the
remaining keys) produce different output texts. -/
theorem dump_comments_order_changes_output :
    astC2.format true (some fileAEx) ["/a.mro", "/b.mro"] = "# a\n# b\n" ∧
    astC2.format true (some fileAEx) ["/b.mro", "/a.mro"] = "# b\n# a\n" ∧
    astC2.format true (some fileAEx) ["/a.mro", "/b.mro"] ≠
      astC2.format true (some fileAEx) ["/b.mro", "/a.mro"] ∧
    ["/a.mro", "/b.mro"].Perm ((groupComments astC2.comments).map Prod.fst) ∧
    ["/b.mro", "/a.mro"].Perm ((groupComments astC2.comments).map Prod.fst) :=
  ⟨by decide, by decide, by decide, by decide, by decide⟩

/-- C3 (counterexample): the claim that calls with no dependency constraint
between them keep their original relative order fails.  With calls declared
`[Z, X, Y]` where `Z` references `Y` and neither of `Z`, `X` references the
other, the sort emits `[X, Y, Z]`: the unconstrained pair `(Z, X)` is
reordered (necessarily so, for any topological order: `X` must stay before
`Y` and `Y` before `Z` under the claim's own stability requirement). -/
theorem topoSort_reorders_unconstrained_pair :
    topoSortCalls [zCallEx, xCallEx, yCallEx] = [xCallEx, yCallEx, zCallEx] ∧
    xCallEx.id ∉ zCallEx.refIds ∧ zCallEx.id ∉ xCallEx.refIds :=
  ⟨rfl, by decide, by decide⟩

/-- C3 (amended): the formatter emits calls in a stable topological order:
the test example `[STAGE_3(dep STAGE_2), STAGE_1, STAGE_2, STAGE_4,
STAGE_5]` is emitted as `[STAGE_1 .. STAGE_5]`; whenever call `B`'s
bindings hold a call-output reference to `A`, `A` is emitted before `B`
(provided the sort completes by dependency selection, which acyclicity
guarantees); a declaration order that already satisfies every dependency
is left unchanged (at each step the earliest ready call is emitted); and
the output is always a permutation of the input. -/
theorem topoSort_stable_topological_order :
    topoSortCalls [S3ex, S1ex, S2ex, S4ex, S5ex] = [S1ex, S2ex, S3ex, S4ex, S5ex] ∧
    (∀ (calls pre suf : List CallStm) (b : CallStm),
      topoOk calls = true →
      topoSortCalls calls = pre ++ b :: suf →
      ∀ aid, aid ∈ b.refIds → aid ∈ calls.map (fun d => d.id) →
      aid ∈ pre.map (fun d => d.id)) ∧
    (∀ calls : List CallStm,
      (∀ (xs ys : List CallStm) (c : CallStm), calls = xs ++ c :: ys →
        ∀ aid ∈ c.refIds, aid ∈ calls.map (fun d => d.id) → aid ∈ xs.map (fun d => d.id)) →
      topoSortCalls calls = calls) ∧
    (∀ calls : List CallStm, (topoSortCalls calls).Perm calls) := by
  refine ⟨rfl, ?_, ?_, topoSortCalls_perm⟩
  · intro calls pre suf b hok hgo aid haid hall
    have hok' : topoOkGo (calls.map (fun c => c.id)) calls.length calls [] = true := hok
    have hgo' : topoGo (calls.map (fun c => c.id)) calls.length calls [] = pre ++ b :: suf := hgo
    rcases topoGo_before (calls.map (fun c => c.id)) calls.length calls [] pre b suf hok' hgo'
        aid haid hall with h | h
    · simp at h
    · exact h
  · intro calls hdep
    exact topoGo_fix (calls.map (fun c => c.id)) calls.length calls []
      (fun xs c ys hx aid ha hin => Or.inr (hdep xs ys c hx aid ha hin))

/-- C3 (witness): instantiating the dependency-order part at the test
example: `STAGE_3` is emitted after `STAGE_1, STAGE_2`, and its referenced
call id `STAGE_2` appears among the calls before it. -/
theorem topoSort_stable_topological_order_witness :
    "STAGE_2" ∈ ([S1ex, S2ex].map (fun d => d.id)) :=
  topoSort_stable_topological_order.2.1 [S3ex, S1ex, S2ex, S4ex, S5ex] [S1ex, S2ex]
    [S4ex, S5ex] S3ex (by decide) rfl "STAGE_2" (by decide) (by decide)

/-- C4 (counterexample): the AST is not read-only during formatting.  For a
call with the bare `local` modifier and no modifier binding table,
`CallStm.format` allocates and stores a bound-form table, so the call after
formatting differs from the call before. -/
theorem callstm_format_mutates_bindings :
    (callC4.format p0 "").2 ≠ callC4 := fun h =>
  absurd (congrArg (fun c => c.modifiers.bindings.isSome) h) (by decide)

/-- C4 (amended): formatting mutates the AST in exactly one way: a call
formatted with a `using` clause leaves behind the canonical (merged and
sorted) modifier binding table, and a pipeline leaves behind its calls in
topological order, each with that same mutation; everything else in the
call is unchanged (`afterFormat` alters only `modifiers.bindings`). -/
theorem format_mutates_ast_as_canonicalization :
    (∀ (c : CallStm) (pr : Printer) (pre : String), (c.format pr pre).2 = c.afterFormat) ∧
    (∀ (pl : Pipeline) (pr : Printer),
      (pl.format pr).2 = pl.withCalls ((topoSortCalls pl.calls).map CallStm.afterFormat)) ∧
    (∀ c : CallStm, (c.afterFormat).node = c.node ∧ (c.afterFormat).id = c.id ∧
      (c.afterFormat).decId = c.decId ∧ (c.afterFormat).bindings = c.bindings ∧
      (c.afterFormat).modifiers.localMod = c.modifiers.localMod ∧
      (c.afterFormat).modifiers.preflight = c.modifiers.preflight ∧
      (c.afterFormat).modifiers.volatile = c.modifiers.volatile) := by
  refine ⟨callStm_format_snd, pipeline_format_snd, ?_⟩
  intro c
  unfold CallStm.afterFormat
  by_cases h : c.usingEmit = true <;> simp [h]

/-- C5: modifier canonicalization.  The binding list emitted in a call's
`using` clause (and stored back into the call) is sorted by identifier, is
a permutation of the bound-form list plus the converted bare modifiers,
keeps every bound-form entry (`disabled` included), adds a `<id> = true`
entry exactly when the bare flag is set and no bound form with that id
exists (bound form wins, no duplicate), and the clause itself is emitted
iff the call has a bare modifier or a nonempty bound-form list. -/
theorem callstm_modifier_canonicalization :
    ∀ c : CallStm,
      (c.canonicalModList).Pairwise (fun a b => strLe a.id b.id = true) ∧
      (c.canonicalModList).Perm c.mergedModList ∧
      (∀ b ∈ c.origModList, b ∈ c.canonicalModList) ∧
      ((c.canonicalModList).countP (fun b => b.id == localKw) =
        (c.origModList).countP (fun b => b.id == localKw) +
          (if c.modifiers.localMod && !foundIn c.origModList localKw then 1 else 0)) ∧
      ((c.canonicalModList).countP (fun b => b.id == preflightKw) =
        (c.origModList).countP (fun b => b.id == preflightKw) +
          (if c.modifiers.preflight && !foundIn c.origModList preflightKw then 1 else 0)) ∧
      ((c.canonicalModList).countP (fun b => b.id == volatileKw) =
        (c.origModList).countP (fun b => b.id == volatileKw) +
          (if c.modifiers.volatile && !foundIn c.origModList volatileKw then 1 else 0)) ∧
      ((c.canonicalModList).countP (fun b => b.id == disabledKw) =
        (c.origModList).countP (fun b => b.id == disabledKw)) ∧
      (c.modifiers.localMod = true → foundIn c.origModList localKw = false →
        c.bareEntry localKw ∈ c.canonicalModList) ∧
      (c.usingEmit = (!(c.origModList).isEmpty || c.modifiers.localMod ||
        c.modifiers.preflight || c.modifiers.volatile)) := by
  intro c
  refine ⟨sortBindsById_pairwise _, sortBindsById_perm _, ?_, ?_, ?_, ?_, ?_, ?_, ?_⟩
  · intro b hb
    refine ((sortBindsById_perm _).mem_iff).mpr ?_
    unfold CallStm.mergedModList
    simp only [List.append_assoc, List.mem_append]
    exact Or.inl hb
  · rw [canonicalModList_countP, mergedModList_countP]
    have h1 : ((c.bareEntry localKw).id == localKw) = true := rfl
    have h2 : ((c.bareEntry preflightKw).id == localKw) = false := rfl
    have h3 : ((c.bareEntry volatileKw).id == localKw) = false := rfl
    simp only [h1, h2, h3]
    by_cases ha : (c.modifiers.localMod && !foundIn c.origModList localKw) = true <;>
      by_cases hb : (c.modifiers.preflight && !foundIn c.origModList preflightKw) = true <;>
      by_cases hc : (c.modifiers.volatile && !foundIn c.origModList volatileKw) = true <;>
      simp [ha, hb, hc]
  · rw [canonicalModList_countP, mergedModList_countP]
    have h1 : ((c.bareEntry localKw).id == preflightKw) = false := rfl
    have h2 : ((c.bareEntry preflightKw).id == preflightKw) = true := rfl
    have h3 : ((c.bareEntry volatileKw).id == preflightKw) = false := rfl
    simp only [h1, h2, h3]
    by_cases ha : (c.modifiers.localMod && !foundIn c.origModList localKw) = true <;>
      by_cases hb : (c.modifiers.preflight && !foundIn c.origModList preflightKw) = true <;>
      by_cases hc : (c.modifiers.volatile && !foundIn c.origModList volatileKw) = true <;>
      simp [ha, hb, hc]
  · rw [canonicalModList_countP, mergedModList_countP]
    have h1 : ((c.bareEntry localKw).id == volatileKw) = false := rfl
    have h2 : ((c.bareEntry preflightKw).id == volatileKw) = false := rfl
    have h3 : ((c.bareEntry volatileKw).id == volatileKw) = true := rfl
    simp only [h1, h2, h3]
    by_cases ha : (c.modifiers.localMod && !foundIn c.origModList localKw) = true <;>
      by_cases hb : (c.modifiers.preflight && !foundIn c.origModList preflightKw) = true <;>
      by_cases hc : (c.modifiers.volatile && !foundIn c.origModList volatileKw) = true <;>
      simp [ha, hb, hc]
  · rw [canonicalModList_countP, mergedModList_countP]
    have h1 : ((c.bareEntry localKw).id == disabledKw) = false := rfl
    have h2 : ((c.bareEntry preflightKw).id == disabledKw) = false := rfl
    have h3 : ((c.bareEntry volatileKw).id == disabledKw) = false := rfl
    simp only [h1, h2, h3]
    by_cases ha : (c.modifiers.localMod && !foundIn c.origModList localKw) = true <;>
      by_cases hb : (c.modifiers.preflight && !foundIn c.origModList preflightKw) = true <;>
      by_cases hc : (c.modifiers.volatile && !foundIn c.origModList volatileKw) = true <;>
      simp [ha, hb, hc]
  · intro hl hf
    refine ((sortBindsById_perm _).mem_iff).mpr ?_
    unfold CallStm.mergedModList
    simp only [List.append_assoc, List.mem_append]
    refine Or.inr (Or.inl ?_)
    rw [if_pos (by simp [hl, hf])]
    exact List.mem_singleton.mpr rfl
  · unfold CallStm.usingEmit CallStm.origModList
    cases c.modifiers.bindings <;> simp

/-- C5 (witness): at a call with bare `local` and bound `disabled`/`volatile`
entries, the converted `local = true` entry is in the canonical list. -/
theorem callstm_modifier_canonicalization_witness :
    callC5.bareEntry localKw ∈ callC5.canonicalModList :=
  (callstm_modifier_canonicalization callC5).2.2.2.2.2.2.2.1 rfl (by decide)

/-- C6 (counterexample): the float `1000000.0` has decimal exponent 6,
which is not below −4, so the claim requires fixed-point `"1000000"`; the
code (Go `%g`, shortest mode) prints it in scientific notation. -/
theorem float_format_million_scientific :
    floatFmt (nearestF64 1000000 0) = "1e+06" ∧ "1e+06" ≠ "1000000" :=
  ⟨by decide, by decide⟩

/-- C6 (amended): float canonicalization prints the shortest round-tripping
decimal, in fixed-point notation unless the decimal exponent is below −4
*or at least 6* (Go `%g` shortest mode), in which case scientific notation
is used, with trailing zeros stripped and a lone `.0` collapsed; the
spec's examples all hold, integers print as exact decimal digits, and at
the boundary `123456.0` is fixed-point while `1000000.0` is scientific. -/
theorem float_format_canonicalization :
    floatFmt (nearestF64 100 (-1)) = "10" ∧
    floatFmt (nearestF64 1005 (-2)) = "10.05" ∧
    floatFmt (nearestF64 10050 (-3)) = "10.05" ∧
    floatFmt (nearestF64 10050000000 (-9)) = "10.05" ∧
    floatFmt (nearestF64 5 (-10)) = "5e-10" ∧
    floatFmt (nearestF64 5 (-4)) = "0.0005" ∧
    intFmt 0 = "0" ∧ intFmt 10 = "10" ∧ intFmt 1000000 = "1000000" ∧
    floatFmt (nearestF64 123456 0) = "123456" ∧
    floatFmt (nearestF64 999999 0) = "999999" ∧
    floatFmt (nearestF64 1000000 0) = "1e+06" :=
  ⟨by decide, by decide, by decide, by decide, by decide, by decide, by decide, by decide,
    by decide, by decide, by decide, by decide⟩

/-- C7: sweep rendering.  A binding whose expression is an array-valued
`ValExp` marked as a sweep renders as `sweep(` + one alternative per line
(trailing comma) + a closing paren at the binding's indent column when
there is more than one alternative; with exactly one alternative it
formats exactly as the same binding with the sweep flag cleared (ordinary
literal formatting, no sweep marker). -/
theorem sweep_binding_format :
    ∀ (b : BindStm) (pr : Printer) (pre : String) (idWidth : Nat)
      (n : AstNode) (kind : String) (xs : ExpList),
      b.exp = Exp.val n kind (.array xs) → b.sweep = true →
      (xs.length > 1 →
        b.format pr pre idWidth =
          ((((pr.printComments b.node (pre ++ INDENT)).printComments n
              (pre ++ INDENT)).writeString
            (pre ++ INDENT ++ b.id ++
              (if b.id.length < idWidth then spaces (idWidth - b.id.length) else "") ++
              " = ")).writeString (formatSweep xs (pre ++ INDENT) ++ ",\n"))) ∧
      (xs.length = 1 → b.format pr pre idWidth = ({b with sweep := false}).format pr pre idWidth) ∧
      (∀ vind, formatSweep xs vind = "sweep(\n" ++ sweepLines xs (vind ++ INDENT) ++ vind ++ ")") ∧
      (∀ vind, sweepLines xs vind =
        (xs.toList.map (fun v => vind ++ v.format vind ++ ",\n")).foldr (· ++ ·) "") := by
  intro b pr pre idWidth n kind xs hexp hsw
  obtain ⟨bn, bid, bexp, bsw, btn⟩ := b
  simp only at hexp hsw
  subst hexp hsw
  refine ⟨?_, ?_, fun vind => rfl, fun vind => sweepLines_eq xs vind⟩
  · intro hlen
    unfold BindStm.format
    simp only [Exp.getNode]
    rw [if_pos (by simp [hlen])]
  · intro hlen
    unfold BindStm.format
    simp [Exp.getNode, hlen]

/-- C7 (witness): the dichotomy instantiated at the two-alternative sweep
binding `value = sweep("two", "deux")` (and, for the one-alternative side,
at `value = sweep("five")`, which formats as the plain literal `["five"]`). -/
theorem sweep_binding_format_witness :
    sweepBindEx.format p0 INDENT 5 =
      ((((p0.printComments sweepBindEx.node (INDENT ++ INDENT)).printComments n0
          (INDENT ++ INDENT)).writeString
        (INDENT ++ INDENT ++ sweepBindEx.id ++
          (if sweepBindEx.id.length < 5 then spaces (5 - sweepBindEx.id.length) else "") ++
          " = ")).writeString (formatSweep xs2Ex (INDENT ++ INDENT) ++ ",\n")) ∧
    sweep1BindEx.format p0 INDENT 5 = ({sweep1BindEx with sweep := false}).format p0 INDENT 5 :=
  ⟨(sweep_binding_format sweepBindEx p0 INDENT 5 n0 KindArray xs2Ex rfl rfl).1 (by decide),
    (sweep_binding_format sweep1BindEx p0 INDENT 5 n0 KindArray xs1Ex rfl rfl).2.1 rfl⟩

/-- C8: string canonicalization.  `ValExp.format` wraps the string payload
in double quotes and applies no escaping to embedded characters; a value
already containing quote characters passes them through literally
(`"blah"` with quotes formats as `""blah""`). -/
theorem string_format_no_escaping :
    (∀ (n : AstNode) (s : String) (pre : String),
      (Exp.val n KindString (.str s)).format pre = "\"" ++ s ++ "\"") ∧
    (Exp.val n0 KindString (.str "blah")).format "" = "\"blah\"" ∧
    (Exp.val n0 KindString (.str "\"blah\"")).format "" = "\"\"blah\"\"" :=
  ⟨fun _ _ _ => rfl, by decide, by decide⟩

/-- C9 (counterexample): at `stageC9` the identifier/help widths computed
from the primary parameters are within the 30/20 bounds, so the claim
("recompute only when the widths computed from the primary parameters
exceed 30/20") predicts no recompute for the chunk block; the code, whose
trigger uses the widths of all four parameter lists, recomputes, and the
two renderings differ. -/
theorem stage_chunk_width_trigger_counterexample :
    (stageC9.format p0).buf ≠ (stageC9.formatClaimC9 p0).buf ∧
    (stagePrimaryWidths stageC9).idW ≤ 30 ∧ (stagePrimaryWidths stageC9).helpW ≤ 20 :=
  ⟨by decide, by decide, by decide⟩

/-- C9 (amended): the shared parameter column widths are the maximum over
the group, excluding identifiers of length ≥ 35 and help strings of length
≥ 25 (the id/help width is attained by a non-outlier when nonzero); and the
chunk-block recompute is triggered by the widths measured over *all four*
parameter lists (primary and chunk together), so the code and the claim's
primary-only reading agree exactly when the two triggers coincide. -/
theorem stage_param_width_rules :
    (∀ (ps : InParams) (q : InParam), q ∈ ps.list → q.id.length < 35 →
      q.id.length ≤ ps.getWidths.idW) ∧
    (∀ (ps : InParams) (q : InParam), q ∈ ps.list → q.help.length < 25 →
      q.help.length ≤ ps.getWidths.helpW) ∧
    (∀ ps : InParams, ps.getWidths.idW = 0 ∨
      ∃ q ∈ ps.list, q.id.length = ps.getWidths.idW ∧ q.id.length < 35) ∧
    (∀ ps : InParams, ps.getWidths.helpW = 0 ∨
      ∃ q ∈ ps.list, q.help.length = ps.getWidths.helpW ∧ q.help.length < 25) ∧
    (∀ (ps : OutParams) (q : OutParam), q ∈ ps.list → q.id.length < 35 →
      q.id.length ≤ ps.getWidths.idW) ∧
    (∀ (ps : OutParams) (q : OutParam), q ∈ ps.list → q.help.length < 25 →
      q.help.length ≤ ps.getWidths.helpW) ∧
    (∀ (s : Stage) (pr : Printer),
      (((stageSharedWidths s).idW > 30 || (stageSharedWidths s).helpW > 20) =
        ((stagePrimaryWidths s).idW > 30 || (stagePrimaryWidths s).helpW > 20)) →
      s.format pr = s.formatClaimC9 pr) := by
  have hstepId : ∀ (w : Widths) (p : Param),
      (paramWidthStep w p).idW = if p.getId.length < 35 then goMax w.idW p.getId.length
        else w.idW := fun w p => rfl
  have hstepHelp : ∀ (w : Widths) (p : Param),
      (paramWidthStep w p).helpW = if p.getHelp.length < 25 then goMax w.helpW p.getHelp.length
        else w.helpW := fun w p => rfl
  refine ⟨?_, ?_, ?_, ?_, ?_, ?_, ?_⟩
  · intro ps q hq hlt
    rw [inParams_getWidths_fold]
    exact widthFold_le (fun w => w.idW) (fun p => p.getId.length) 35 hstepId _ _
      (Param.inP q) (List.mem_map_of_mem _ hq) hlt
  · intro ps q hq hlt
    rw [inParams_getWidths_fold]
    exact widthFold_le (fun w => w.helpW) (fun p => p.getHelp.length) 25 hstepHelp _ _
      (Param.inP q) (List.mem_map_of_mem _ hq) hlt
  · intro ps
    rw [inParams_getWidths_fold]
    rcases widthFold_attained (fun w => w.idW) (fun p => p.getId.length) 35 hstepId
        (ps.list.map Param.inP) ⟨0, 0, 0, 0⟩ with h | h
    · exact Or.inl h
    · obtain ⟨p, hp, hgp, hB⟩ := h
      obtain ⟨q, hq, rfl⟩ := List.mem_map.mp hp
      exact Or.inr ⟨q, hq, hgp, hB⟩
  · intro ps
    rw [inParams_getWidths_fold]
    rcases widthFold_attained (fun w => w.helpW) (fun p => p.getHelp.length) 25 hstepHelp
        (ps.list.map Param.inP) ⟨0, 0, 0, 0⟩ with h | h
    · exact Or.inl h
    · obtain ⟨p, hp, hgp, hB⟩ := h
      obtain ⟨q, hq, rfl⟩ := List.mem_map.mp hp
      exact Or.inr ⟨q, hq, hgp, hB⟩
  · intro ps q hq hlt
    rw [outParams_getWidths_fold]
    exact widthFold_le (fun w => w.idW) (fun p => p.getId.length) 35 hstepId _ _
      (Param.outP q) (List.mem_map_of_mem _ hq) hlt
  · intro ps q hq hlt
    rw [outParams_getWidths_fold]
    exact widthFold_le (fun w => w.helpW) (fun p => p.getHelp.length) 25 hstepHelp _ _
      (Param.outP q) (List.mem_map_of_mem _ hq) hlt
  · intro s pr htrig
    unfold Stage.format Stage.formatClaimC9
    rw [htrig]

/-- C9 (witness): at a parameterless stage both triggers are false, so the
code's rendering and the claim's rendering coincide; and at `stageC9` the
31-character chunk identifier is a non-outlier counted into the width. -/
theorem stage_param_width_rules_witness :
    stageSmall.format p0 = stageSmall.formatClaimC9 p0 ∧
    (31 : Nat) ≤ (stageC9.chunkIns.getWidths).idW :=
  ⟨stage_param_width_rules.2.2.2.2.2.2 stageSmall p0 (by decide),
    stage_param_width_rules.1 stageC9.chunkIns ⟨n0, "int", 0,
      "abcdefghijklmnopqrstuvwxyzabcde", "", false⟩ (by simp [stageC9]) (by decide)⟩

/-- C10: in `JsonDumpAsts` the exported user-type/stage/pipeline mappings
are built by plain map assignment over the input ASTs in order, so a lookup
returns exactly the last declaration (in AST-list order, then declaration
order) with that identifier — later ASTs silently shadow earlier ones and
no duplicate-identifier error is raised (the export is total). -/
theorem json_dump_last_writer_wins :
    ∀ (asts : List Ast) (k : String),
      jsonDumpUserTypes asts k =
        ((asts.map (fun a => a.userTypes)).flatten.reverse.find? (fun t => t.id == k)) ∧
      jsonDumpStages asts k =
        ((asts.map (fun a => a.stages)).flatten.reverse.find? (fun s => s.id == k)) ∧
      jsonDumpPipelines asts k =
        ((asts.map (fun a => a.pipelines)).flatten.reverse.find? (fun p => p.id == k)) :=
  fun asts k =>
    ⟨lastDeclWins (fun t : UserType => t.id) (fun a => a.userTypes) asts k,
      lastDeclWins (fun s : Stage => s.id) (fun a => a.stages) asts k,
      lastDeclWins (fun p : Pipeline => p.id) (fun a => a.pipelines) asts k⟩
